import Mathlib

/-!
Verification development for the Edumentor repository.

The Lean definitions below are a shallow embedding of the Python code under
`edumentor_full/edumentor` (services and agents).  Python strings are modelled
as `List Char`, Python integer indices as `Int` (Python slicing and `rfind`
accept and reinterpret negative indices, so `Nat` would be unfaithful),
dictionaries as association lists, and the external LLM / embedding-model /
similarity-search collaborators as injected parameters or exact executable
models.  Fallible external calls are modelled with `Except`.
-/

namespace Edumentor

/-! ## Python primitives: dictionaries, slices, `rfind`, `strip`, `lower` -/

/-- Python `dict` lookup `d.get(k)` over an association list. -/
def pyLookup {α : Type} : List (String × α) → String → Option α
  | [], _ => none
  | (k, v) :: rest, key => if k = key then some v else pyLookup rest key

/-- Python `d[k] = v`: update in place when the key exists (Python dicts keep
insertion order), otherwise append at the end. -/
def dictSet {α : Type} : List (String × α) → String → α → List (String × α)
  | [], key, v => [(key, v)]
  | (k, w) :: rest, key, v =>
    if k = key then (key, v) :: rest else (k, w) :: dictSet rest key v

/-- Python `del d[k]` (total model: removes every binding of the key). -/
def dictDel {α : Type} (d : List (String × α)) (key : String) : List (String × α) :=
  d.filter (fun kv => kv.1 ≠ key)

/-- Python `xs[-n:]`: the last `n` elements. -/
def pyLastN {α : Type} (n : Nat) (xs : List α) : List α :=
  xs.drop (xs.length - n)

/-- `sub.isPrefixOf (t.drop i)`: the pattern `sub` occurs in `t` at index `i`. -/
def occursAt (t sub : List Char) (i : Nat) : Bool :=
  sub.isPrefixOf (t.drop i)

/-- Python substring test `sub in t` (used by the router and prompt checks). -/
def containsSub : List Char → List Char → Bool
  | [], sub => sub.isEmpty
  | c :: rest, sub => sub.isPrefixOf (c :: rest) || containsSub rest sub

/-- `sub` occurs somewhere inside `l` (propositional form of `in`). -/
def SubstrL (sub l : List Char) : Prop :=
  ∃ p q, l = p ++ sub ++ q

/-- Python `str.lower()` restricted to ASCII letters (the router keywords are
ASCII, so this is the relevant fragment of Python case folding). -/
def pyLower (l : List Char) : List Char :=
  l.map Char.toLower

/-- ASCII fragment of Python `str.isspace` used by `str.strip()`. -/
def pySpace (c : Char) : Bool :=
  c = ' ' || c = '\t' || c = '\n' || c = '\r' || c = '\x0b' || c = '\x0c'

/-- Python `str.strip()`: drop leading and trailing whitespace. -/
def pyStrip (l : List Char) : List Char :=
  List.rdropWhile pySpace (l.dropWhile pySpace)

/-- Normalise a Python slice bound for a string of length `n`: a negative
index counts from the end of the string, and bounds are clamped to `[0, n]`. -/
def sliceNorm (n : Nat) (i : Int) : Nat :=
  if i < 0 then (n + i).toNat else min i.toNat n

/-- Python slice `t[a:b]` with full negative-index semantics. -/
def pySlice (t : List Char) (a b : Int) : List Char :=
  (t.take (sliceNorm t.length b)).drop (sliceNorm t.length a)

/-- Highest `i ≤ k` with `lo ≤ i` and an occurrence of `sub` at `i`, else `-1`
(descending scan; the helper behind Python `rfind`). -/
def rfindFrom (t sub : List Char) (lo : Nat) : Nat → Int
  | 0 => if lo = 0 && occursAt t sub 0 then (0 : Int) else -1
  | k + 1 =>
    if lo ≤ k + 1 && occursAt t sub (k + 1) then ((k + 1 : Nat) : Int)
    else rfindFrom t sub lo k

/-- Python `t.rfind(sub, a, b)`: highest index of an occurrence of `sub`
lying entirely inside the (normalised) range `[a, b)`, or `-1`. -/
def pyRfind (t sub : List Char) (a b : Int) : Int :=
  let lo := sliceNorm t.length a
  let hi := sliceNorm t.length b
  if sub.length ≤ hi then rfindFrom t sub lo (hi - sub.length) else -1

/-! ## `PDFProcessor.chunk_text` (`edumentor/services/pdf_processor.py`)

The Python loop body is factored into `computeEnd` (the boundary-adjustment
of `end`) and `chunkNext` (the `start = end - overlap if end < text_length
else text_length` update).  The `while` loop itself is embedded with fuel,
because — as proved below — it does not always terminate. -/

/-- The paragraph-break pattern searched for by `chunk_text`. -/
def paraBrk : List Char := ['\n', '\n']

/-- `". "`, the first sentence-break pattern. -/
def dotSp : List Char := ['.', ' ']

/-- `"! "`, the second sentence-break pattern. -/
def bangSp : List Char := ['!', ' ']

/-- `"? "`, the third sentence-break pattern. -/
def questSp : List Char := ['?', ' ']

/-- The `end` position chosen by one iteration of `chunk_text`: start from
`start + chunk_size`; if that is inside the text, pull back to the last
paragraph break after `start` if any, else to just past the last sentence
break after `start` if any. -/
def computeEnd (t : List Char) (cs start : Int) : Int :=
  let n : Int := t.length
  let end0 := start + cs
  if end0 < n then
    let p := pyRfind t paraBrk start end0
    if p > start then p
    else
      let sb := max (pyRfind t dotSp start end0)
        (max (pyRfind t bangSp start end0) (pyRfind t questSp start end0))
      if sb > start then sb + 1 else end0
  else end0

/-- The next `start` position: `end - overlap` when `end` is before the end
of the text, else `text_length` (which exits the loop). -/
def chunkNext (t : List Char) (cs ov start : Int) : Int :=
  let e := computeEnd t cs start
  if e < (t.length : Int) then e - ov else (t.length : Int)

/-- The chunk emitted by one iteration: `text[start:end].strip()`. -/
def chunkPiece (t : List Char) (cs start : Int) : List Char :=
  pyStrip (pySlice t start (computeEnd t cs start))

/-- Fuel-indexed embedding of the `while start < text_length` loop of
`chunk_text`; `none` means the fuel ran out before the loop exited. -/
def chunkLoop (t : List Char) (cs ov : Int) : Nat → Int → List (List Char) → Option (List (List Char))
  | 0, _, _ => none
  | fuel + 1, start, acc =>
    if start < (t.length : Int) then
      let c := chunkPiece t cs start
      chunkLoop t cs ov fuel (chunkNext t cs ov start)
        (if c.isEmpty then acc else acc ++ [c])
    else some acc

/-- `PDFProcessor.chunk_text` (fuel-indexed): empty or all-whitespace text
returns `[]` immediately; otherwise run the chunking loop from `start = 0`. -/
def chunkText (t : List Char) (cs ov : Int) (fuel : Nat) : Option (List (List Char)) :=
  if t.isEmpty || (pyStrip t).isEmpty then some []
  else chunkLoop t cs ov fuel 0 []

/-- The `start` values reachable by the loop of `chunk_text`. -/
inductive ChunkReach (t : List Char) (cs ov : Int) : Int → Prop
  | zero : ChunkReach t cs ov 0
  | step (s : Int) : ChunkReach t cs ov s → s < (t.length : Int) →
      ChunkReach t cs ov (chunkNext t cs ov s)

/-- A paragraph break lies in the current chunk window strictly after `start`
(the premise of the boundary rule in the spec's chunking claim). -/
def ParaWindow (t : List Char) (cs start : Int) (i : Nat) : Prop :=
  start < (i : Int) ∧ (i : Int) + 2 ≤ start + cs ∧ occursAt t paraBrk i = true

/-- A sentence break (`". "`, `"! "` or `"? "`) lies in the current chunk
window strictly after `start`. -/
def SentWindow (t : List Char) (cs start : Int) (i : Nat) : Prop :=
  start < (i : Int) ∧ (i : Int) + 2 ≤ start + cs ∧
    (occursAt t dotSp i = true ∨ occursAt t bangSp i = true ∨
      occursAt t questSp i = true)

instance (t : List Char) (cs start : Int) (i : Nat) :
    Decidable (ParaWindow t cs start i) := by
  unfold ParaWindow
  infer_instance

instance (t : List Char) (cs start : Int) (i : Nat) :
    Decidable (SentWindow t cs start i) := by
  unfold SentWindow
  infer_instance

/-- Sample text used to witness the chunking theorem. -/
def kenobiText : List Char := "Hello there. General Kenobi! You are bold.".data

/-- The chunks `chunk_text` produces on `kenobiText` with size 20, overlap 3. -/
def kenobiChunks : List (List Char) :=
  ["Hello there.".data, "re. General Kenobi!".data, "bi! You are bold.".data]

/-! ## `SessionService` (`edumentor/services/session.py`) -/

/-- A chat message `{"role": ..., "content": ...}`. -/
structure Msg where
  role : String
  content : String
deriving DecidableEq, Repr

/-- A session dict as created by `SessionService`. -/
structure Session where
  user_id : Option String
  messages : List Msg
  history_summary : String
  current_topic : Option String
deriving DecidableEq, Repr

/-- The default session installed by `get_session`'s `setdefault`. -/
def emptySession : Session :=
  { user_id := none, messages := [], history_summary := "", current_topic := none }

/-- `SessionService.get_session`: `setdefault` — returns the session and the
(possibly extended) store. -/
def getSession (st : List (String × Session)) (sid : String) :
    Session × List (String × Session) :=
  match pyLookup st sid with
  | some s => (s, st)
  | none => (emptySession, dictSet st sid emptySession)

/-- `SessionService.add_message`: append the message, then keep only the
last 10 raw messages. -/
def addMessage (st : List (String × Session)) (sid role content : String) :
    List (String × Session) :=
  let p := getSession st sid
  dictSet p.2 sid
    { p.1 with messages := pyLastN 10 (p.1.messages ++ [⟨role, content⟩]) }

/-- `SessionService.create_session` with the freshly generated uuid passed in
(uuid generation is an external collaborator). -/
def createSession (st : List (String × Session)) (uid sid : String) :
    List (String × Session) :=
  dictSet st sid
    { user_id := some uid, messages := [], history_summary := "", current_topic := none }

/-- The `SessionService` calls observable through the public API. -/
inductive SOp where
  | create (uid sid : String)
  | get (sid : String)
  | addMsg (sid role content : String)

/-- Apply one `SessionService` call to the store. -/
def applySOp (st : List (String × Session)) : SOp → List (String × Session)
  | .create uid sid => createSession st uid sid
  | .get sid => (getSession st sid).2
  | .addMsg sid role content => addMessage st sid role content

/-- Run a sequence of `SessionService` calls from the empty store. -/
def runSOps (ops : List SOp) : List (String × Session) :=
  ops.foldl applySOp []

/-- All messages added to session `sid` by `add_message`, in call order. -/
def msgsFor (sid : String) (ops : List SOp) : List Msg :=
  ops.foldl (fun acc op =>
    match op with
    | .addMsg s r c => if s = sid then acc ++ [⟨r, c⟩] else acc
    | _ => acc) []

/-- Scans the call sequence tracking whether an `add_message` for `sid` has
happened; `false` when a `create_session` returns `sid` afterwards. -/
def createsFreshAux (sid : String) : Bool → List SOp → Bool
  | _, [] => true
  | seen, op :: rest =>
    match op with
    | .create _ s => if s = sid && seen then false else createsFreshAux sid seen rest
    | .addMsg s _ _ => createsFreshAux sid (seen || s = sid) rest
    | .get _ => createsFreshAux sid seen rest

/-- The uuid freshness assumption: no `create_session` call returns `sid`
after a message was already added to session `sid` (uuid4 collisions are the
only way to violate this in the real system). -/
def createsFresh (sid : String) (ops : List SOp) : Bool :=
  createsFreshAux sid false ops

/-! ## Python values and dicts for profiles (`edumentor/services/profile.py`,
`edumentor/services/context.py`) -/

/-- The fragment of JSON-serialisable Python values stored in profile dicts. -/
inductive PyVal where
  | none
  | str (s : String)
  | int (n : Int)
deriving DecidableEq, Repr

/-- A Python dict of profile fields. -/
abbrev PyDict := List (String × PyVal)

/-- Python truthiness of a profile value. -/
def pyTruthy : PyVal → Bool
  | .none => false
  | .str s => s ≠ ""
  | .int n => n ≠ 0

/-- Rendering of a value inside an f-string. -/
def pyValStr : PyVal → String
  | .none => "None"
  | .str s => s
  | .int n => toString n

/-- `d.get(k)` on a profile dict: `None` when the key is missing. -/
def pyGet (d : PyDict) (k : String) : PyVal :=
  (pyLookup d k).getD PyVal.none

/-- `ProfileService.get_profile`: look the user up in the JSON flat file
(the parsed file contents are the state; `json.dumps`/`json.loads` round-trip
is the external JSON library). -/
def getProfile (st : List (String × PyDict)) (user_id : String) : Option PyDict :=
  pyLookup st user_id

/-- `ProfileService.upsert_profile`: read all, set the key, write all. -/
def upsertProfile (st : List (String × PyDict)) (user_id : String) (p : PyDict) :
    List (String × PyDict) :=
  dictSet st user_id p

/-- A sequence of `upsert_profile` calls applied to the initial empty file. -/
def runUpserts (ops : List (String × PyDict)) : List (String × PyDict) :=
  ops.foldl (fun st p => upsertProfile st p.1 p.2) []

/-! ## Context assembly (`edumentor/services/context.py`) -/

/-- The base tutor system prompt (`BASE_TUTOR_SYSTEM_PROMPT`). -/
def BASE_TUTOR_SYSTEM_PROMPT : String :=
  "You are EduMentor, a friendly, patient AI tutor\nfor middle and high school students. You explain step by step, check\nunderstanding, and adapt difficulty.\n\nAlways:\n- Use clear, simple language.\n- Show intermediate steps for maths problems.\n- Ask a brief follow-up question to confirm understanding.\n"

/-- The personalisation guidance appended after the profile header. -/
def profileGuidance : String :=
  "Adapt explanations using the profile: use simpler language and more scaffolding for younger/beginner students; provide deeper examples for advanced students. Focus your expertise on the student\x27s selected subject. Where helpful, address the student by name and refer to their grade or age when giving examples."

/-- The instruction appended when vector context is available: prioritise and
cite the uploaded-document content. -/
def vectorCtxInstruction : String :=
  "\n\nIMPORTANT: Relevant content from uploaded PDF documents has been provided in the context. Use this information to answer the student\x27s question accurately. If the uploaded content contains the answer, prioritize it over general knowledge. Always cite the source when using information from uploaded documents."

/-- Python `sep.join(xs)`. -/
def pyJoin (sep : String) : List String → String
  | [] => ""
  | [x] => x
  | x :: xs => x ++ sep ++ pyJoin sep xs

/-- The profile lines collected by `build_tutor_system_prompt`, in source
order; `age` is included when not `None`, every other field when truthy. -/
def partsOf (d : PyDict) : List String :=
  (if pyTruthy (pyGet d "name") then ["Name: " ++ pyValStr (pyGet d "name")] else []) ++
  (if pyGet d "age" ≠ PyVal.none then ["Age: " ++ pyValStr (pyGet d "age")] else []) ++
  (if pyTruthy (pyGet d "grade") then ["Grade: " ++ pyValStr (pyGet d "grade")] else []) ++
  (if pyTruthy (pyGet d "syllabus") then ["Syllabus: " ++ pyValStr (pyGet d "syllabus")] else []) ++
  (if pyTruthy (pyGet d "subject") then ["Subject: " ++ pyValStr (pyGet d "subject")] else []) ++
  (if pyTruthy (pyGet d "proficiency") then ["Proficiency: " ++ pyValStr (pyGet d "proficiency")] else []) ++
  (if pyTruthy (pyGet d "gender") then ["Gender: " ++ pyValStr (pyGet d "gender")] else [])

/-- `build_tutor_system_prompt`: returns the base prompt immediately for a
falsy (`None` or empty) profile; otherwise appends the profile header and
guidance when any field is present, and the vector-context instruction when
`vector_context` is truthy. -/
def buildTutorSystemPrompt (student_profile : Option PyDict)
    (vector_context : Option String) : String :=
  match student_profile with
  | Option.none => BASE_TUTOR_SYSTEM_PROMPT
  | some d =>
    if d.isEmpty then BASE_TUTOR_SYSTEM_PROMPT
    else
      let parts := partsOf d
      let prompt1 :=
        if parts.isEmpty then BASE_TUTOR_SYSTEM_PROMPT
        else BASE_TUTOR_SYSTEM_PROMPT ++ "\nStudent Profile (for personalization):\n- "
          ++ pyJoin "\n- " parts ++ ".\n" ++ profileGuidance
      match vector_context with
      | some vc => if vc ≠ "" then prompt1 ++ vectorCtxInstruction else prompt1
      | Option.none => prompt1

/-! ## `VectorStore` (`edumentor/services/vector_store.py`)

The sentence-transformer embedding model is an injected `encode` function;
the FAISS `IndexFlatL2` is modelled by its exact semantics: vectors in
insertion order, searched by (squared) L2 distance. -/

/-- An embedding vector (exact integer model of the external float vectors). -/
abbrev Vec := List Int

/-- An entry of the per-subject metadata list. -/
structure MetaEntry where
  text : String
  source : String
  idx : Nat
deriving DecidableEq, Repr

/-- Per-subject FAISS index (its stored vectors) plus metadata list; the code
creates and mutates the two dicts in lockstep. -/
structure SubjData where
  vecs : List Vec
  meta : List MetaEntry
deriving DecidableEq, Repr

/-- A search result dict as returned by `VectorStore.search`. -/
structure SearchResult where
  text : String
  source : String
  score : Int
  rank : Nat
deriving DecidableEq, Repr

/-- Squared L2 distance (FAISS `IndexFlatL2` metric, exact integer model). -/
def l2dist (q v : Vec) : Int :=
  ((q.zip v).map (fun p => (p.1 - p.2) * (p.1 - p.2))).sum

/-- Stable insertion of a (distance, index) pair into an ascending list. -/
def insertByDist (x : Int × Nat) : List (Int × Nat) → List (Int × Nat)
  | [] => [x]
  | y :: ys => if x.1 < y.1 then x :: y :: ys else y :: insertByDist x ys

/-- Stable sort of (distance, index) pairs by ascending distance. -/
def sortByDist : List (Int × Nat) → List (Int × Nat)
  | [] => []
  | x :: xs => insertByDist x (sortByDist xs)

/-- `IndexFlatL2.search`: the `k` (distance, index) pairs with smallest
distance to the query, in increasing-distance order. -/
def faissSearch (vecs : List Vec) (q : Vec) (k : Nat) : List (Int × Nat) :=
  (sortByDist ((vecs.map (l2dist q)).zip (List.range vecs.length))).take k

/-- The in-memory `VectorStore` state: `indexes` and `metadata` per subject. -/
abbrev VState := List (String × SubjData)

/-- `_load_all_indexes` on a fresh data directory: the three known subjects
are initialised empty. -/
def initState : VState :=
  [("maths", ⟨[], []⟩), ("science", ⟨[], []⟩), ("evs", ⟨[], []⟩)]

/-- `_init_subject_index`: a new empty index and metadata list. -/
def initSubjectIndex (st : VState) (subject : String) : VState :=
  dictSet st subject ⟨[], []⟩

/-- `VectorStore.add_documents`: initialise the subject if unknown, return 0
for no texts, else embed the texts, extend the index, and append metadata
entries with `index = start_idx + i`. -/
def addDocuments (encode : String → Vec) (st : VState) (subject : String)
    (texts : List String) (source : String) : VState × Nat :=
  let st1 := match pyLookup st subject with
    | some _ => st
    | none => initSubjectIndex st subject
  if texts.isEmpty then (st1, 0)
  else
    let d := (pyLookup st1 subject).getD ⟨[], []⟩
    let start_idx := d.meta.length
    let newMeta := ((List.range texts.length).zip texts).map
      (fun p => MetaEntry.mk p.2 source (start_idx + p.1))
    (dictSet st1 subject ⟨d.vecs ++ texts.map encode, d.meta ++ newMeta⟩,
      texts.length)

/-- `VectorStore.delete_subject_data`: when the subject is known, drop it and
re-initialise it empty; otherwise do nothing. -/
def deleteSubjectData (st : VState) (subject : String) : VState :=
  match pyLookup st subject with
  | some _ => initSubjectIndex (dictDel st subject) subject
  | none => st

/-- The `for i, (dist, idx) in enumerate(zip(...))` result-collection loop of
`VectorStore.search`: entries with `idx` in range become results with
`rank = i + 1`. -/
def searchGather (meta : List MetaEntry) : Nat → List (Int × Nat) → List SearchResult
  | _, [] => []
  | i, p :: rest =>
    match meta.get? p.2 with
    | some m => ⟨m.text, m.source, p.1, i + 1⟩ :: searchGather meta (i + 1) rest
    | none => searchGather meta (i + 1) rest

/-- `VectorStore.search`: empty for an unknown subject or one with no
documents; otherwise search the FAISS index with `k = min(top_k, n_docs)`
and collect the results. -/
def searchVS (encode : String → Vec) (st : VState) (subject query : String)
    (top_k : Nat) : List SearchResult :=
  match pyLookup st subject with
  | Option.none => []
  | some d =>
    if d.meta.isEmpty then []
    else
      let k := min top_k d.meta.length
      searchGather d.meta 0 (faissSearch d.vecs (encode query) k)

/-- The `VectorStore` mutations observable through the public API. -/
inductive VOp where
  | add (subject : String) (texts : List String) (source : String)
  | del (subject : String)

/-- Apply one `VectorStore` mutation. -/
def applyVOp (encode : String → Vec) (st : VState) : VOp → VState
  | .add s texts src => (addDocuments encode st s texts src).1
  | .del s => deleteSubjectData st s

/-- Run a sequence of `VectorStore` mutations from the fresh-store state. -/
def runVOps (encode : String → Vec) (ops : List VOp) : VState :=
  ops.foldl (applyVOp encode) initState

/-- Number of chunks added for a subject since it was last initialised or
deleted. -/
def chunksFrom (s : String) (ops : List VOp) (acc : Nat) : Nat :=
  ops.foldl (fun a op =>
    match op with
    | .add s2 texts _ => if s2 = s then a + texts.length else a
    | .del s2 => if s2 = s then 0 else a) acc

/-- `chunksFrom` started from a fresh store. -/
def chunksSince (s : String) (ops : List VOp) : Nat :=
  chunksFrom s ops 0

/-- All `(chunk text, source)` pairs ever added for subject `s`. -/
def addedPairs (s : String) (ops : List VOp) : List (String × String) :=
  ops.foldl (fun acc op =>
    match op with
    | .add s2 texts src =>
      if s2 = s then acc ++ texts.map (fun x => (x, src)) else acc
    | .del _ => acc) []

/-- The `(text, source)` pairs currently stored for subject `s`. -/
def metaPairs (st : VState) (s : String) : List (String × String) :=
  match pyLookup st s with
  | some d => d.meta.map (fun m => (m.text, m.source))
  | none => []

/-- The metadata well-formedness maintained by the store: entry `i` carries
`index = i`, and the FAISS index holds exactly one vector per entry. -/
def MetaOk (d : SubjData) : Prop :=
  (∀ i (hi : i < d.meta.length), (d.meta.get ⟨i, hi⟩).idx = i) ∧
  d.vecs.length = d.meta.length

/-- Current number of documents for a subject (0 when unknown). -/
def docCount (st : VState) (s : String) : Nat :=
  match pyLookup st s with
  | some d => d.meta.length
  | none => 0

/-! ## `AgentOrchestrator` (`edumentor/agents/orchestrator.py`) -/

/-- The routing condition: `"plan" in lower and ("study" in lower or "test"
in lower)`, shared by `route_message` and the fallback path. -/
def routeCond (message : String) : Bool :=
  let lower := pyLower message.data
  containsSub lower "plan".data &&
    (containsSub lower "study".data || containsSub lower "test".data)

/-- The LangGraph router node `route_message`: the name of the target node. -/
def routeMessage (message : String) : String :=
  if routeCond message then "planner" else "tutor"

/-- The routing condition as the spec states it, propositionally: the
lowercased message contains `"plan"` and also `"study"` or `"test"`. -/
def RouteP (message : String) : Prop :=
  SubstrL "plan".data (pyLower message.data) ∧
    (SubstrL "study".data (pyLower message.data) ∨
      SubstrL "test".data (pyLower message.data))

/-- The stored profile dict loaded in `handle_message` (keys `name`, `age`,
`class`, `syllabus`, `proficiency`, `gender`), with the request subject
added when truthy. -/
def buildStoredProfile (profiles : Option (List (String × PyDict)))
    (user_id : String) (subject : Option String) : PyDict :=
  let base : PyDict :=
    match profiles with
    | Option.none => []
    | some ps =>
      match getProfile ps user_id with
      | some stored =>
        if stored.isEmpty then []
        else [("name", pyGet stored "name"), ("age", pyGet stored "age"),
          ("class", pyGet stored "class"), ("syllabus", pyGet stored "syllabus"),
          ("proficiency", pyGet stored "proficiency"), ("gender", pyGet stored "gender")]
      | Option.none => []
  match subject with
  | some s => if s ≠ "" then dictSet base "subject" (PyVal.str s) else base
  | Option.none => base

/-- The vector context string assembled from search results:
`"\n\n".join(f"[From {source}]: {text}")`. -/
def joinCtx (rs : List SearchResult) : String :=
  pyJoin "\n\n" (rs.map (fun r => "[From " ++ r.source ++ "]: " ++ r.text))

/-- `AgentOrchestrator.handle_message` (fallback in-code routing path; the
LLM agents are the injected `tutorReply` / `plannerReply`, and the outcome of
the external vector-store search call is injected as `searchOutcome`, with
`Except.error` modelling a raised exception).  Returns the updated session
store and the reply. -/
def handleMessage
    (tutorReply : PyDict → Session → String → Option String → String)
    (plannerReply : PyDict → String → Nat → String)
    (profiles : Option (List (String × PyDict)))
    (hasStore : Bool)
    (searchOutcome : Except String (List SearchResult))
    (st : List (String × Session))
    (user_id session_id message : String) (subject : Option String) :
    List (String × Session) × String :=
  let st1 := (getSession st session_id).2
  let st2 := addMessage st1 session_id "user" message
  let subjTruthy : Bool := match subject with
    | some s => decide (s ≠ "")
    | Option.none => false
  let vector_context : Option String :=
    if subjTruthy && hasStore then
      match searchOutcome with
      | .ok rs => if rs.isEmpty then Option.none else some (joinCtx rs)
      | .error _ => Option.none
    else Option.none
  let student_profile := buildStoredProfile profiles user_id subject
  let session2 := (getSession st2 session_id).1
  let reply :=
    if routeCond message then plannerReply student_profile message 5
    else tutorReply student_profile session2 message vector_context
  let st3 := addMessage st2 session_id "assistant" reply
  (st3, reply)

/-! ## Lemmas about the Python string primitives -/

theorem head_not_of_prefix {p : Char → Bool} {x d : List Char} (hpre : x <+: d)
    (hne : x ≠ []) (hd : ∀ hw : d ≠ [], p (d.head hw) = false)
    (hl : 0 < x.length) : p (x.get ⟨0, hl⟩) = false := by
  obtain ⟨tail, rfl⟩ := hpre
  have hw : x ++ tail ≠ [] := by simp [hne]
  have hfalse := hd hw
  rw [List.head_append_of_ne_nil hne] at hfalse
  rw [List.get_mk_zero]
  exact hfalse

theorem pyStrip_idem (l : List Char) : pyStrip (pyStrip l) = pyStrip l := by
  unfold pyStrip
  have h1 : (List.rdropWhile pySpace (l.dropWhile pySpace)).dropWhile pySpace
      = List.rdropWhile pySpace (l.dropWhile pySpace) := by
    rw [List.dropWhile_eq_self_iff]
    intro hl hp
    have hne : List.rdropWhile pySpace (l.dropWhile pySpace) ≠ [] := by
      intro hnil
      rw [hnil] at hl
      simp at hl
    have hfalse := head_not_of_prefix (p := pySpace)
      (List.rdropWhile_prefix pySpace (l.dropWhile pySpace)) hne
      (fun hw => List.head_dropWhile_not pySpace l hw) hl
    rw [hfalse] at hp
    exact Bool.false_ne_true hp
  rw [h1, List.rdropWhile_idempotent]

theorem pyStrip_length_le (l : List Char) : (pyStrip l).length ≤ l.length := by
  unfold pyStrip
  calc (List.rdropWhile pySpace (l.dropWhile pySpace)).length
      ≤ (l.dropWhile pySpace).length :=
        (List.rdropWhile_prefix pySpace _).length_le
    _ ≤ l.length := (List.dropWhile_suffix pySpace).length_le

theorem occursAt_bound (t sub : List Char) (i : Nat) (hs : 0 < sub.length)
    (h : occursAt t sub i = true) : i + sub.length ≤ t.length := by
  unfold occursAt at h
  rw [List.isPrefixOf_iff_prefix] at h
  have hlen := h.length_le
  rw [List.length_drop] at hlen
  by_cases hi : i ≤ t.length
  · omega
  · exfalso
    have : t.length - i = 0 := by omega
    omega

theorem rfindFrom_spec (t sub : List Char) (lo k : Nat) :
    (rfindFrom t sub lo k = -1 ∧ ∀ i : Nat, lo ≤ i → i ≤ k → occursAt t sub i = false)
    ∨ (∃ m : Nat, rfindFrom t sub lo k = (m : Int) ∧ lo ≤ m ∧ m ≤ k ∧
        occursAt t sub m = true ∧
        ∀ j : Nat, m < j → j ≤ k → occursAt t sub j = false) := by
  induction k with
  | zero =>
    by_cases hc : (lo = 0 && occursAt t sub 0) = true
    · right
      simp only [Bool.and_eq_true, decide_eq_true_eq] at hc
      refine ⟨0, ?_, ?_, ?_, ?_, ?_⟩
      · simp only [rfindFrom]
        rw [if_pos (by simp [hc.1, hc.2])]
        simp
      · omega
      · exact le_refl 0
      · exact hc.2
      · intro j hj hj0
        omega
    · left
      constructor
      · simp only [rfindFrom]
        rw [if_neg hc]
      · intro i hlo hi
        have hi0 : i = 0 := by omega
        subst hi0
        have hlo0 : lo = 0 := by omega
        rcases h : occursAt t sub 0 with _ | _
        · rfl
        · exact absurd (by simp [hlo0, h]) hc
  | succ k ih =>
    by_cases hc : (lo ≤ k + 1 && occursAt t sub (k + 1)) = true
    · right
      simp only [Bool.and_eq_true, decide_eq_true_eq] at hc
      refine ⟨k + 1, ?_, hc.1, le_refl _, hc.2, ?_⟩
      · simp only [rfindFrom]
        rw [if_pos (by simp [hc.1, hc.2])]
      · intro j hj hj1
        omega
    · have hstep : rfindFrom t sub lo (k + 1) = rfindFrom t sub lo k := by
        simp only [rfindFrom]
        rw [if_neg hc]
      have hnot : lo ≤ k + 1 → occursAt t sub (k + 1) = false := by
        intro h
        rcases ho : occursAt t sub (k + 1) with _ | _
        · rfl
        · exact absurd (by simp [h, ho]) hc
      rcases ih with ⟨hval, hnone⟩ | ⟨m, hval, hlo, hk, hocc, hmax⟩
      · left
        refine ⟨by rw [hstep]; exact hval, ?_⟩
        intro i hloi hik
        by_cases hik' : i ≤ k
        · exact hnone i hloi hik'
        · have : i = k + 1 := by omega
          subst this
          exact hnot hloi
      · right
        refine ⟨m, by rw [hstep]; exact hval, hlo, by omega, hocc, ?_⟩
        intro j hmj hjk
        by_cases hjk' : j ≤ k
        · exact hmax j hmj hjk'
        · have : j = k + 1 := by omega
          subst this
          exact hnot (by omega)

theorem sliceNorm_le (n : Nat) (i : Int) : sliceNorm n i ≤ n := by
  unfold sliceNorm
  split <;> omega

theorem pySlice_length (t : List Char) (a b : Int) :
    (pySlice t a b).length = sliceNorm t.length b - sliceNorm t.length a := by
  unfold pySlice
  rw [List.length_drop, List.length_take]
  have := sliceNorm_le t.length b
  omega

theorem pyRfind_ub (t sub : List Char) (a b : Int) (j : Nat)
    (hlo : sliceNorm t.length a ≤ j) (hhi : j + sub.length ≤ sliceNorm t.length b)
    (hocc : occursAt t sub j = true) : (j : Int) ≤ pyRfind t sub a b := by
  unfold pyRfind
  have hsb : sub.length ≤ sliceNorm t.length b := by omega
  rw [if_pos hsb]
  rcases rfindFrom_spec t sub (sliceNorm t.length a) (sliceNorm t.length b - sub.length) with
    ⟨hval, hnone⟩ | ⟨m, hval, hlom, hmk, hoccm, hmax⟩
  · exact absurd hocc (by simp [hnone j hlo (by omega)])
  · rw [hval]
    by_cases hjm : j ≤ m
    · exact_mod_cast hjm
    · exact absurd hocc (by simp [hmax j (by omega) (by omega)])

theorem pyRfind_found (t sub : List Char) (a b : Int)
    (h : 0 ≤ pyRfind t sub a b) :
    ∃ m : Nat, pyRfind t sub a b = (m : Int) ∧ sliceNorm t.length a ≤ m ∧
      m + sub.length ≤ sliceNorm t.length b ∧ occursAt t sub m = true := by
  unfold pyRfind at *
  by_cases hsb : sub.length ≤ sliceNorm t.length b
  · rw [if_pos hsb] at h ⊢
    rcases rfindFrom_spec t sub (sliceNorm t.length a) (sliceNorm t.length b - sub.length) with
      ⟨hval, _⟩ | ⟨m, hval, hlom, hmk, hoccm, _⟩
    · rw [hval] at h
      omega
    · exact ⟨m, hval, hlom, by omega, hoccm⟩
  · rw [if_neg hsb] at h
    omega

theorem pyRfind_ge_neg_one (t sub : List Char) (a b : Int) :
    -1 ≤ pyRfind t sub a b := by
  unfold pyRfind
  by_cases hsb : sub.length ≤ sliceNorm t.length b
  · rw [if_pos hsb]
    rcases rfindFrom_spec t sub (sliceNorm t.length a) (sliceNorm t.length b - sub.length) with
      ⟨hval, _⟩ | ⟨m, hval, _⟩
    · rw [hval]
    · rw [hval]
      omega
  · rw [if_neg hsb]

theorem sliceNorm_cast_le (n : Nat) (i : Int) (h : 0 ≤ i) :
    (sliceNorm n i : Int) ≤ i := by
  unfold sliceNorm
  split <;> omega

/-- The `max` of the three sentence-break `rfind` results, when non-negative,
is itself a sentence-break occurrence inside the search window. -/
theorem sentMax_found (t : List Char) (a b : Int)
    (h : 0 ≤ max (pyRfind t dotSp a b)
      (max (pyRfind t bangSp a b) (pyRfind t questSp a b))) :
    ∃ m : Nat, max (pyRfind t dotSp a b)
        (max (pyRfind t bangSp a b) (pyRfind t questSp a b)) = (m : Int) ∧
      sliceNorm t.length a ≤ m ∧ m + 2 ≤ sliceNorm t.length b ∧
      (occursAt t dotSp m = true ∨ occursAt t bangSp m = true ∨
        occursAt t questSp m = true) := by
  rcases max_choice (pyRfind t dotSp a b)
      (max (pyRfind t bangSp a b) (pyRfind t questSp a b)) with h1 | h1
  · rw [h1] at h ⊢
    obtain ⟨m, hval, hlo, hk, hocc⟩ := pyRfind_found t dotSp a b h
    exact ⟨m, hval, hlo, by simpa [dotSp] using hk, Or.inl hocc⟩
  · rw [h1] at h ⊢
    rcases max_choice (pyRfind t bangSp a b) (pyRfind t questSp a b) with h2 | h2
    · rw [h2] at h ⊢
      obtain ⟨m, hval, hlo, hk, hocc⟩ := pyRfind_found t bangSp a b h
      exact ⟨m, hval, hlo, by simpa [bangSp] using hk, Or.inr (Or.inl hocc)⟩
    · rw [h2] at h ⊢
      obtain ⟨m, hval, hlo, hk, hocc⟩ := pyRfind_found t questSp a b h
      exact ⟨m, hval, hlo, by simpa [questSp] using hk, Or.inr (Or.inr hocc)⟩

theorem computeEnd_le (t : List Char) (cs start : Int) (h0 : 0 ≤ start) (hcs : 0 < cs) :
    computeEnd t cs start ≤ start + cs := by
  have hcast := sliceNorm_cast_le t.length (start + cs) (by omega)
  unfold computeEnd
  dsimp only
  split
  · split
    · rename_i hlt hp
      obtain ⟨m, hval, _, hmk, _⟩ := pyRfind_found t paraBrk start (start + cs) (by omega)
      rw [hval] at hp ⊢
      simp only [paraBrk, List.length_cons, List.length_nil] at hmk
      omega
    · split
      · rename_i hlt hp hsb
        obtain ⟨m, hval, _, hmk, _⟩ :=
          sentMax_found t start (start + cs) (by omega)
        rw [hval]
        omega
      · omega
  · omega

theorem sliceNorm_eq_of (n : Nat) (i : Int) (h0 : 0 ≤ i) (h : i ≤ n) :
    (sliceNorm n i : Int) = i := by
  unfold sliceNorm
  split <;> omega

/-- Boundary-selection rule of `chunk_text` for a window at a non-negative
start position: if the window contains a paragraph break after its start the
chunk ends at the last such break; otherwise, if it contains a sentence break
after its start, the chunk ends just past the last such break. -/
theorem computeEnd_spec (t : List Char) (cs start : Int) (h0 : 0 ≤ start)
    (hin : start + cs < (t.length : Int)) (hcs : 0 < cs) :
    ((∃ i, ParaWindow t cs start i) →
      ∃ i, ParaWindow t cs start i ∧ computeEnd t cs start = (i : Int) ∧
        ∀ j, ParaWindow t cs start j → j ≤ i)
    ∧ ((¬ ∃ i, ParaWindow t cs start i) → (∃ i, SentWindow t cs start i) →
      ∃ i, SentWindow t cs start i ∧ computeEnd t cs start = (i : Int) + 1 ∧
        ∀ j, SentWindow t cs start j → j ≤ i) := by
  have hlo_eq : (sliceNorm t.length start : Int) = start :=
    sliceNorm_eq_of t.length start h0 (by omega)
  have hhi_eq : (sliceNorm t.length (start + cs) : Int) = start + cs :=
    sliceNorm_eq_of t.length (start + cs) (by omega) (by omega)
  have hpara_len : paraBrk.length = 2 := by simp [paraBrk]
  constructor
  · rintro ⟨i0, hlt0, hwin0, hocc0⟩
    have hub := pyRfind_ub t paraBrk start (start + cs) i0
      (by omega) (by omega) hocc0
    obtain ⟨m, hval, hlom, hmk, hoccm⟩ :=
      pyRfind_found t paraBrk start (start + cs) (by omega)
    have hmgt : start < (m : Int) := by
      rw [hval] at hub
      omega
    refine ⟨m, ⟨hmgt, by omega, hoccm⟩, ?_, ?_⟩
    · unfold computeEnd
      dsimp only
      rw [if_pos hin, hval, if_pos hmgt]
    · intro j ⟨hltj, hwinj, hoccj⟩
      have := pyRfind_ub t paraBrk start (start + cs) j (by omega) (by omega) hoccj
      rw [hval] at this
      omega
  · rintro hnopara ⟨i0, hlt0, hwin0, hocc0⟩
    have hpns : ¬ pyRfind t paraBrk start (start + cs) > start := by
      intro hgt
      obtain ⟨m, hval, hlom, hmk, hoccm⟩ :=
        pyRfind_found t paraBrk start (start + cs) (by omega)
      exact hnopara ⟨m, by omega, by omega, hoccm⟩
    have hub : (i0 : Int) ≤ max (pyRfind t dotSp start (start + cs))
        (max (pyRfind t bangSp start (start + cs))
          (pyRfind t questSp start (start + cs))) := by
      rcases hocc0 with h | h | h
      · have := pyRfind_ub t dotSp start (start + cs) i0
          (by omega) (by simp [dotSp]; omega) h
        exact le_trans this (le_max_left _ _)
      · have := pyRfind_ub t bangSp start (start + cs) i0
          (by omega) (by simp [bangSp]; omega) h
        exact le_trans this (le_trans (le_max_left _ _) (le_max_right _ _))
      · have := pyRfind_ub t questSp start (start + cs) i0
          (by omega) (by simp [questSp]; omega) h
        exact le_trans this (le_trans (le_max_right _ _) (le_max_right _ _))
    obtain ⟨m, hval, hlom, hmk, hoccm⟩ :=
      sentMax_found t start (start + cs) (by omega)
    have hmgt : start < (m : Int) := by
      rw [hval] at hub
      omega
    refine ⟨m, ⟨hmgt, by omega, hoccm⟩, ?_, ?_⟩
    · unfold computeEnd
      dsimp only
      rw [if_pos hin, if_neg hpns, hval, if_pos hmgt]
    · intro j ⟨hltj, hwinj, hoccj⟩
      have hj : (j : Int) ≤ max (pyRfind t dotSp start (start + cs))
          (max (pyRfind t bangSp start (start + cs))
            (pyRfind t questSp start (start + cs))) := by
        rcases hoccj with h | h | h
        · have := pyRfind_ub t dotSp start (start + cs) j
            (by omega) (by simp [dotSp]; omega) h
          exact le_trans this (le_max_left _ _)
        · have := pyRfind_ub t bangSp start (start + cs) j
            (by omega) (by simp [bangSp]; omega) h
          exact le_trans this (le_trans (le_max_left _ _) (le_max_right _ _))
        · have := pyRfind_ub t questSp start (start + cs) j
            (by omega) (by simp [questSp]; omega) h
          exact le_trans this (le_trans (le_max_right _ _) (le_max_right _ _))
      rw [hval] at hj
      omega

theorem computeEnd_ge_neg_one (t : List Char) (cs start : Int)
    (h : 0 ≤ start + cs) : -1 ≤ computeEnd t cs start := by
  have h1 := pyRfind_ge_neg_one t paraBrk start (start + cs)
  have h2 := pyRfind_ge_neg_one t dotSp start (start + cs)
  have h3 := pyRfind_ge_neg_one t bangSp start (start + cs)
  have h4 := pyRfind_ge_neg_one t questSp start (start + cs)
  unfold computeEnd
  dsimp only
  split
  · split
    · omega
    · split
      · have : -1 ≤ max (pyRfind t dotSp start (start + cs))
            (max (pyRfind t bangSp start (start + cs))
              (pyRfind t questSp start (start + cs))) := le_trans h2 (le_max_left _ _)
        omega
      · omega
  · omega

theorem chunkNext_inv (t : List Char) (cs ov start : Int) (hov : 0 ≤ ov)
    (hcs : ov < cs) (hst : -(ov + 1) ≤ start) :
    -(ov + 1) ≤ chunkNext t cs ov start := by
  have he := computeEnd_ge_neg_one t cs start (by omega)
  unfold chunkNext
  dsimp only
  split
  · omega
  · omega

theorem chunkPiece_len (t : List Char) (cs ov start : Int) (hov : 0 ≤ ov)
    (hcs : ov < cs) (hst : -(ov + 1) ≤ start) :
    ((chunkPiece t cs start).length : Int) ≤ cs := by
  have hlen : (chunkPiece t cs start).length ≤ (pySlice t start (computeEnd t cs start)).length :=
    pyStrip_length_le _
  rw [pySlice_length] at hlen
  have hB := sliceNorm_le t.length (computeEnd t cs start)
  by_cases hneg : start < 0
  · -- a negative start is reinterpreted from the end of the text, so the
    -- slice has at most `-start ≤ ov + 1 ≤ cs` characters
    have hA : sliceNorm t.length start = (t.length + start).toNat := by
      unfold sliceNorm
      rw [if_pos hneg]
    omega
  · have hgt := computeEnd_le t cs start (by omega) (by omega)
    have hge : start < computeEnd t cs start ∨ computeEnd t cs start = start + cs := by
      unfold computeEnd
      dsimp only
      split
      · split
        · left; assumption
        · split
          · left; omega
          · right; rfl
      · right; rfl
    have hA : sliceNorm t.length start = min start.toNat t.length := by
      unfold sliceNorm
      rw [if_neg hneg]
    have hBle : (sliceNorm t.length (computeEnd t cs start) : Int) ≤ computeEnd t cs start := by
      apply sliceNorm_cast_le
      omega
    omega

theorem chunkPiece_stripped (t : List Char) (cs start : Int) :
    pyStrip (chunkPiece t cs start) = chunkPiece t cs start := by
  unfold chunkPiece
  exact pyStrip_idem _

theorem chunkLoop_sound (t : List Char) (cs ov : Int) (hov : 0 ≤ ov)
    (hcs : ov < cs) :
    ∀ (fuel : Nat) (start : Int) (acc chunks : List (List Char)),
      -(ov + 1) ≤ start →
      (∀ c ∈ acc, (c.length : Int) ≤ cs ∧ pyStrip c ≠ []) →
      chunkLoop t cs ov fuel start acc = some chunks →
      ∀ c ∈ chunks, (c.length : Int) ≤ cs ∧ pyStrip c ≠ [] := by
  intro fuel
  induction fuel with
  | zero =>
    intro start acc chunks _ _ h
    simp [chunkLoop] at h
  | succ f ih =>
    intro start acc chunks hst hacc h
    rw [chunkLoop] at h
    by_cases hlt : start < (t.length : Int)
    · rw [if_pos hlt] at h
      refine ih (chunkNext t cs ov start) _ chunks
        (chunkNext_inv t cs ov start hov hcs hst) ?_ h
      intro c hc
      by_cases hemp : (chunkPiece t cs start).isEmpty
      · rw [if_pos hemp] at hc
        exact hacc c hc
      · rw [if_neg hemp] at hc
        rcases List.mem_append.mp hc with hold | hnew
        · exact hacc c hold
        · have hceq : c = chunkPiece t cs start := List.mem_singleton.mp hnew
          subst hceq
          refine ⟨chunkPiece_len t cs ov start hov hcs hst, ?_⟩
          rw [chunkPiece_stripped]
          simpa [List.isEmpty_iff] using hemp
    · rw [if_neg hlt] at h
      have : acc = chunks := Option.some.inj h
      subst this
      exact hacc

/-! ## Claim theorems for `chunk_text` (C2, C3) -/

/-- C2 (amended): for `chunk_size > overlap ≥ 0`, every chunk returned by
`chunk_text` has at most `chunk_size` characters and is non-empty after
stripping; for every reachable **non-negative** window start position, when
the window contains a paragraph break after its start the chunk ends at the
last such break, otherwise at (just past) the last sentence break if one
exists after the start; and the next window's start is the previous end
minus `overlap` whenever that end is before the end of the text.  (The
original claim fails for the reachable negative start positions produced by
the overlap step, where Python reinterprets the index from the end of the
text: see the counterexample.) -/
theorem chunk_text_window_spec (t : List Char) (cs ov : Int) (fuel : Nat)
    (chunks : List (List Char)) (hov : 0 ≤ ov) (hcs : ov < cs)
    (h : chunkText t cs ov fuel = some chunks) :
    (∀ c ∈ chunks, (c.length : Int) ≤ cs ∧ pyStrip c ≠ []) ∧
    (∀ start : Int, ChunkReach t cs ov start → 0 ≤ start →
      start + cs < (t.length : Int) →
      (((∃ i, ParaWindow t cs start i) →
        ∃ i, ParaWindow t cs start i ∧ computeEnd t cs start = (i : Int) ∧
          ∀ j, ParaWindow t cs start j → j ≤ i)
      ∧ ((¬ ∃ i, ParaWindow t cs start i) → (∃ i, SentWindow t cs start i) →
        ∃ i, SentWindow t cs start i ∧ computeEnd t cs start = (i : Int) + 1 ∧
          ∀ j, SentWindow t cs start j → j ≤ i))) ∧
    (∀ start : Int, ChunkReach t cs ov start →
      computeEnd t cs start < (t.length : Int) →
      chunkNext t cs ov start = computeEnd t cs start - ov) := by
  refine ⟨?_, ?_, ?_⟩
  · unfold chunkText at h
    split at h
    · have : chunks = [] := (Option.some.inj h).symm
      subst this
      intro c hc
      exact absurd hc (List.not_mem_nil c)
    · exact chunkLoop_sound t cs ov hov hcs fuel 0 [] chunks (by omega)
        (fun c hc => absurd hc (List.not_mem_nil c)) h
  · intro start _ h0 hin
    exact computeEnd_spec t cs start h0 hin (by omega)
  · intro start _ hlt
    unfold chunkNext
    dsimp only
    rw [if_pos hlt]

/-- Witness for C2: concrete run of `chunk_text` satisfying the hypotheses. -/
theorem chunk_text_window_spec_witness :
    (0 : Int) ≤ 3 ∧ (3 : Int) < 20 ∧
    chunkText kenobiText 20 3 50 = some kenobiChunks ∧
    (∀ c ∈ kenobiChunks, (c.length : Int) ≤ 20 ∧ pyStrip c ≠ []) :=
  ⟨by decide, by decide, by decide,
    (chunk_text_window_spec kenobiText 20 3 50 kenobiChunks (by decide)
      (by decide) (by decide)).1⟩

/-- C2 counterexample: on text `"a\n\nzzzzzz"` with `chunk_size = 5`,
`overlap = 2`, the loop reaches window start `-1`; that window contains the
paragraph break at index 1 after its start (and no other), yet the code ends
the chunk at 4, not at the break.  Python's `rfind` reinterprets the negative
start from the end of the string, so the break is never found. -/
theorem chunk_text_window_cex :
    ChunkReach "a\n\nzzzzzz".data 5 2 (-1) ∧
    ParaWindow "a\n\nzzzzzz".data 5 (-1) 1 ∧
    (∀ j, ParaWindow "a\n\nzzzzzz".data 5 (-1) j → j = 1) ∧
    computeEnd "a\n\nzzzzzz".data 5 (-1) = 4 := by
  refine ⟨?_, by decide, ?_, by decide⟩
  · have h : chunkNext "a\n\nzzzzzz".data 5 2 0 = -1 := by decide
    exact h ▸ ChunkReach.step 0 ChunkReach.zero (by decide)
  · intro j hj
    obtain ⟨h1, h2, h3⟩ := hj
    have hle : j ≤ 2 := by omega
    interval_cases j
    · exact absurd h3 (by decide)
    · rfl
    · exact absurd h3 (by decide)

/-- C3 is false of the code: `chunk_text("a\n\nzzzz", chunk_size=3, overlap=1)`
never terminates — the loop sets `end = 1` (the paragraph break) and then
`start = end - overlap = 0` again, forever.  In the fuel-indexed embedding,
no amount of fuel makes it return. -/
theorem chunk_text_nonterminating :
    ∀ fuel : Nat, chunkText "a\n\nzzzz".data 3 1 fuel = none := by
  intro fuel
  unfold chunkText
  rw [if_neg (by decide)]
  suffices h : ∀ (f : Nat) (acc : List (List Char)),
      chunkLoop "a\n\nzzzz".data 3 1 f 0 acc = none from h fuel []
  intro f
  induction f with
  | zero =>
    intro acc
    rfl
  | succ g ih =>
    intro acc
    rw [chunkLoop]
    rw [if_pos (by decide)]
    have h1 : chunkNext "a\n\nzzzz".data 3 1 0 = 0 := by decide
    rw [h1]
    exact ih _

/-! ## Dictionary, session-store and substring lemmas -/

theorem pyLookup_dictSet_self {α : Type} (d : List (String × α)) (k : String) (v : α) :
    pyLookup (dictSet d k v) k = some v := by
  induction d with
  | nil => simp [dictSet, pyLookup]
  | cons kv rest ih =>
    obtain ⟨k', v'⟩ := kv
    by_cases h : k' = k
    · simp [dictSet, h, pyLookup]
    · simp [dictSet, h, pyLookup, ih]

theorem pyLookup_dictSet_ne {α : Type} (d : List (String × α)) (k k' : String) (v : α)
    (h : k' ≠ k) : pyLookup (dictSet d k v) k' = pyLookup d k' := by
  induction d with
  | nil =>
    simp only [dictSet, pyLookup]
    rw [if_neg (fun he => h he.symm)]
  | cons kv rest ih =>
    obtain ⟨k'', v''⟩ := kv
    by_cases hk : k'' = k
    · subst hk
      simp only [dictSet, if_pos rfl, pyLookup]
      rw [if_neg (fun he => h he.symm), if_neg (fun he => h he.symm)]
    · simp only [dictSet, if_neg hk, pyLookup]
      by_cases hk2 : k'' = k'
      · rw [if_pos hk2, if_pos hk2]
      · rw [if_neg hk2, if_neg hk2]
        exact ih

theorem pyLookup_dictDel_ne {α : Type} (d : List (String × α)) (k k' : String)
    (h : k' ≠ k) : pyLookup (dictDel d k) k' = pyLookup d k' := by
  induction d with
  | nil => rfl
  | cons kv rest ih =>
    obtain ⟨k'', v''⟩ := kv
    simp only [dictDel, List.filter_cons] at ih ⊢
    by_cases hk : k'' = k
    · rw [if_neg (by simp [hk])]
      rw [pyLookup, if_neg (by rw [hk]; exact fun he => h he.symm)]
      exact ih
    · rw [if_pos (by simp [hk])]
      rw [pyLookup, pyLookup]
      by_cases hk2 : k'' = k'
      · rw [if_pos hk2, if_pos hk2]
      · rw [if_neg hk2, if_neg hk2]
        exact ih

theorem getSession_lookup (st : List (String × Session)) (sid : String) :
    pyLookup (getSession st sid).2 sid = some (getSession st sid).1 := by
  unfold getSession
  cases h : pyLookup st sid with
  | some s => simp [h]
  | none => simp [pyLookup_dictSet_self]

theorem getSession_fst_of_lookup (st : List (String × Session)) (sid : String)
    (s : Session) (h : pyLookup st sid = some s) : (getSession st sid).1 = s := by
  unfold getSession
  rw [h]

theorem getSession_frame (st : List (String × Session)) (sid sid' : String)
    (h : sid' ≠ sid) : pyLookup (getSession st sid).2 sid' = pyLookup st sid' := by
  unfold getSession
  cases hh : pyLookup st sid with
  | some s => rfl
  | none => exact pyLookup_dictSet_ne st sid sid' emptySession h

theorem getSession_of_lookup (st : List (String × Session)) (sid : String)
    (s : Session) (h : pyLookup st sid = some s) : getSession st sid = (s, st) := by
  unfold getSession
  rw [h]

theorem addMessage_lookup_self (st : List (String × Session)) (sid role content : String) :
    pyLookup (addMessage st sid role content) sid =
      some { (getSession st sid).1 with
        messages := pyLastN 10 ((getSession st sid).1.messages ++ [⟨role, content⟩]) } := by
  unfold addMessage
  exact pyLookup_dictSet_self _ _ _

theorem addMessage_frame (st : List (String × Session)) (sid sid' role content : String)
    (h : sid' ≠ sid) :
    pyLookup (addMessage st sid role content) sid' = pyLookup st sid' := by
  unfold addMessage
  dsimp only
  rw [pyLookup_dictSet_ne _ _ _ _ h]
  exact getSession_frame st sid sid' h

theorem createSession_frame (st : List (String × Session)) (uid sid sid' : String)
    (h : sid' ≠ sid) :
    pyLookup (createSession st uid sid) sid' = pyLookup st sid' := by
  unfold createSession
  exact pyLookup_dictSet_ne _ _ _ _ h

theorem pyLastN_length_le {α : Type} (n : Nat) (xs : List α) :
    (pyLastN n xs).length ≤ n := by
  unfold pyLastN
  rw [List.length_drop]
  omega

theorem pyLastN_append {α : Type} (n : Nat) (xs ys : List α) :
    pyLastN n (pyLastN n xs ++ ys) = pyLastN n (xs ++ ys) := by
  unfold pyLastN
  rw [List.drop_append_eq_append_drop, List.drop_append_eq_append_drop, List.drop_drop]
  have h1 : xs.length - n + ((xs.drop (xs.length - n) ++ ys).length - n)
      = (xs ++ ys).length - n := by
    simp only [List.length_append, List.length_drop]
    omega
  have h2 : (xs.drop (xs.length - n) ++ ys).length - n - (xs.drop (xs.length - n)).length
      = (xs ++ ys).length - n - xs.length := by
    simp only [List.length_append, List.length_drop]
    omega
  rw [h1, h2]

theorem addMessage_twice (st : List (String × Session)) (sid r1 c1 r2 c2 : String) :
    pyLookup (addMessage (addMessage st sid r1 c1) sid r2 c2) sid =
      some { (getSession st sid).1 with
        messages := pyLastN 10 ((getSession st sid).1.messages ++ [⟨r1, c1⟩, ⟨r2, c2⟩]) } := by
  rw [addMessage_lookup_self]
  rw [getSession_fst_of_lookup _ _ _ (addMessage_lookup_self st sid r1 c1)]
  have := pyLastN_append 10 ((getSession st sid).1.messages ++ [(⟨r1, c1⟩ : Msg)])
    [(⟨r2, c2⟩ : Msg)]
  simp only [List.append_assoc, List.cons_append, List.nil_append] at this ⊢
  rw [this]

theorem containsSub_iff (l sub : List Char) :
    containsSub l sub = true ↔ SubstrL sub l := by
  induction l with
  | nil =>
    simp only [containsSub, List.isEmpty_iff]
    constructor
    · intro h
      exact ⟨[], [], by simp [h]⟩
    · rintro ⟨p, q, hpq⟩
      have h := hpq.symm
      simp only [List.append_eq_nil] at h
      exact h.1.2
  | cons c rest ih =>
    simp only [containsSub, Bool.or_eq_true, ih]
    constructor
    · rintro (hpre | ⟨p, q, hpq⟩)
      · rw [List.isPrefixOf_iff_prefix] at hpre
        obtain ⟨q, hq⟩ := hpre
        exact ⟨[], q, by simp [← hq]⟩
      · exact ⟨c :: p, q, by simp [hpq]⟩
    · rintro ⟨p, q, hpq⟩
      cases p with
      | nil =>
        left
        rw [List.isPrefixOf_iff_prefix]
        exact ⟨q, by simpa using hpq.symm⟩
      | cons a p' =>
        right
        simp only [List.cons_append] at hpq
        injection hpq with h1 h2
        exact ⟨p', q, h2⟩

theorem routeCond_iff (m : String) : routeCond m = true ↔ RouteP m := by
  unfold routeCond RouteP
  dsimp only
  rw [Bool.and_eq_true, Bool.or_eq_true]
  rw [containsSub_iff, containsSub_iff, containsSub_iff]

/-! ## Claim theorems C1, C6, C7 -/

/-- C1: routing is a pure keyword match.  `route_message` answers `"planner"`
iff the lowercased message contains `"plan"` and also `"study"` or `"test"`,
and `"tutor"` otherwise; and `handle_message` (run here with canary agents)
produces the planner's reply exactly under the same condition, the tutor's
otherwise. -/
theorem routing_keyword_match
    (profiles : Option (List (String × PyDict))) (hasStore : Bool)
    (so : Except String (List SearchResult)) (st : List (String × Session))
    (uid sid message : String) (subject : Option String) :
    (routeMessage message = "planner" ↔ RouteP message) ∧
    (routeMessage message = "tutor" ↔ ¬ RouteP message) ∧
    (RouteP message →
      (handleMessage (fun _ _ _ _ => "TUTOR-REPLY") (fun _ _ _ => "PLANNER-REPLY")
        profiles hasStore so st uid sid message subject).2 = "PLANNER-REPLY") ∧
    (¬ RouteP message →
      (handleMessage (fun _ _ _ _ => "TUTOR-REPLY") (fun _ _ _ => "PLANNER-REPLY")
        profiles hasStore so st uid sid message subject).2 = "TUTOR-REPLY") := by
  have hiff := routeCond_iff message
  by_cases hc : routeCond message = true
  · refine ⟨?_, ?_, ?_, ?_⟩
    · rw [routeMessage, if_pos hc]
      simp [hiff.mp hc]
    · rw [routeMessage, if_pos hc]
      constructor
      · intro h
        exact absurd h (by decide)
      · intro h
        exact absurd (hiff.mp hc) h
    · intro _
      unfold handleMessage
      dsimp only
      rw [if_pos hc]
    · intro h
      exact absurd (hiff.mp hc) h
  · refine ⟨?_, ?_, ?_, ?_⟩
    · rw [routeMessage, if_neg hc]
      constructor
      · intro h
        exact absurd h (by decide)
      · intro h
        exact absurd (hiff.mpr h) hc
    · rw [routeMessage, if_neg hc]
      simp only [true_iff]
      intro h
      exact hc (hiff.mpr h)
    · intro h
      exact absurd (hiff.mpr h) hc
    · intro _
      unfold handleMessage
      dsimp only
      rw [if_neg hc]

/-- C6: when the vector-store search raises, `handle_message` swallows the
exception: the run is identical to a run with no retrieved context, the user
message and the assistant reply are still appended to the session (keeping
the last 10), and a reply string is returned. -/
theorem handle_message_search_failure
    (tutorReply : PyDict → Session → String → Option String → String)
    (plannerReply : PyDict → String → Nat → String)
    (profiles : Option (List (String × PyDict)))
    (st : List (String × Session)) (uid sid message e s : String)
    (_hs : s ≠ "") :
    handleMessage tutorReply plannerReply profiles true (.error e) st uid sid message (some s)
      = handleMessage tutorReply plannerReply profiles true (.ok []) st uid sid message (some s)
    ∧ pyLookup (handleMessage tutorReply plannerReply profiles true (.error e)
          st uid sid message (some s)).1 sid = some
        { (getSession st sid).1 with
          messages := pyLastN 10 ((getSession st sid).1.messages ++
            [⟨"user", message⟩,
             ⟨"assistant", (handleMessage tutorReply plannerReply profiles true (.error e)
               st uid sid message (some s)).2⟩]) } := by
  constructor
  · rfl
  · unfold handleMessage
    dsimp only
    rw [addMessage_twice]
    rw [getSession_fst_of_lookup _ _ _ (getSession_lookup st sid)]

/-- C7: profile persistence round-trips: `get_profile` after
`upsert_profile` returns the stored profile, other users are untouched, and
a user never upserted (from the initial empty file) reads back `None`. -/
theorem profile_roundtrip (st : List (String × PyDict)) (uid v : String) (p : PyDict)
    (ops : List (String × PyDict)) (hv : v ≠ uid) (huid : uid ∉ ops.map Prod.fst) :
    getProfile (upsertProfile st uid p) uid = some p ∧
    getProfile (upsertProfile st uid p) v = getProfile st v ∧
    getProfile (runUpserts ops) uid = none := by
  refine ⟨pyLookup_dictSet_self st uid p, pyLookup_dictSet_ne st uid v p hv, ?_⟩
  have key : ∀ (l : List (String × PyDict)) (acc : List (String × PyDict)),
      uid ∉ l.map Prod.fst → pyLookup acc uid = none →
      pyLookup (l.foldl (fun st2 q => upsertProfile st2 q.1 q.2) acc) uid = none := by
    intro l
    induction l with
    | nil =>
      intro acc _ hacc
      exact hacc
    | cons q rest ih =>
      intro acc hmem hacc
      simp only [List.map_cons, List.mem_cons] at hmem
      push_neg at hmem
      refine ih _ hmem.2 ?_
      unfold upsertProfile
      rw [pyLookup_dictSet_ne _ _ _ _ hmem.1]
      exact hacc
  exact key ops [] huid rfl

/-- Witness for C1: a message satisfying the routing condition. -/
theorem routing_keyword_match_witness :
    routeMessage "Please plan my study schedule" = "planner" ∧
    (handleMessage (fun _ _ _ _ => "TUTOR-REPLY") (fun _ _ _ => "PLANNER-REPLY")
      none true (.ok []) [] "u1" "s1" "Please plan my study schedule" none).2
      = "PLANNER-REPLY" := by
  have hr : RouteP "Please plan my study schedule" :=
    ⟨(containsSub_iff _ _).mp (by decide),
      Or.inl ((containsSub_iff _ _).mp (by decide))⟩
  exact ⟨(routing_keyword_match none true (.ok []) [] "u1" "s1"
      "Please plan my study schedule" none).1.mpr hr,
    (routing_keyword_match none true (.ok []) [] "u1" "s1"
      "Please plan my study schedule" none).2.2.1 hr⟩

/-- Witness for C6: concrete failing search, inspected session store. -/
theorem handle_message_search_failure_witness :
    handleMessage (fun _ _ _ _ => "T") (fun _ _ _ => "P") none true
        (.error "boom") [] "u1" "s1" "hello" (some "maths")
      = handleMessage (fun _ _ _ _ => "T") (fun _ _ _ => "P") none true
        (.ok []) [] "u1" "s1" "hello" (some "maths") ∧
    pyLookup (handleMessage (fun _ _ _ _ => "T") (fun _ _ _ => "P") none true
        (.error "boom") [] "u1" "s1" "hello" (some "maths")).1 "s1" = some
      { (getSession [] "s1").1 with
        messages := pyLastN 10 ((getSession [] "s1").1.messages ++
          [⟨"user", "hello"⟩,
           ⟨"assistant", (handleMessage (fun _ _ _ _ => "T") (fun _ _ _ => "P") none true
             (.error "boom") [] "u1" "s1" "hello" (some "maths")).2⟩]) } :=
  handle_message_search_failure (fun _ _ _ _ => "T") (fun _ _ _ => "P") none []
    "u1" "s1" "hello" "boom" "maths" (by decide)

/-- Witness for C7: concrete profiles. -/
theorem profile_roundtrip_witness :
    getProfile (upsertProfile [] "carol" [("name", PyVal.str "Carol")]) "carol"
      = some [("name", PyVal.str "Carol")] ∧
    getProfile (upsertProfile [] "carol" [("name", PyVal.str "Carol")]) "bob"
      = getProfile [] "bob" ∧
    getProfile (runUpserts [("alice", [("name", PyVal.str "Alice")])]) "carol" = none :=
  profile_roundtrip [] "carol" "bob" [("name", PyVal.str "Carol")]
    [("alice", [("name", PyVal.str "Alice")])] (by decide) (by decide)

/-! ## Session message-cap invariant (C9) -/

theorem runSOps_snoc (ops : List SOp) (op : SOp) :
    runSOps (ops ++ [op]) = applySOp (runSOps ops) op := by
  unfold runSOps
  rw [List.foldl_append]
  rfl

theorem msgsFor_snoc (sid : String) (ops : List SOp) (op : SOp) :
    msgsFor sid (ops ++ [op]) =
      (match op with
        | .addMsg s r c => if s = sid then msgsFor sid ops ++ [⟨r, c⟩] else msgsFor sid ops
        | _ => msgsFor sid ops) := by
  unfold msgsFor
  rw [List.foldl_append]
  rfl

theorem createsFreshAux_append (sid : String) (l1 l2 : List SOp) :
    ∀ seen, createsFreshAux sid seen (l1 ++ l2) = true →
      createsFreshAux sid seen l1 = true := by
  induction l1 with
  | nil =>
    intro seen _
    rfl
  | cons op rest ih =>
    intro seen h
    cases op with
    | create uid s =>
      simp only [List.cons_append, createsFreshAux] at h ⊢
      by_cases hc : (s = sid && seen) = true
      · rw [if_pos hc] at h
        exact absurd h (by simp)
      · rw [if_neg hc] at h ⊢
        exact ih _ h
    | get s =>
      simp only [List.cons_append, createsFreshAux] at h ⊢
      exact ih _ h
    | addMsg s r c =>
      simp only [List.cons_append, createsFreshAux] at h ⊢
      exact ih _ h

theorem createsFreshAux_no_adds (sid uid : String) (ops : List SOp) :
    ∀ seen, createsFreshAux sid seen (ops ++ [SOp.create uid sid]) = true →
      seen = false ∧ ∀ r c, SOp.addMsg sid r c ∉ ops := by
  induction ops with
  | nil =>
    intro seen h
    simp only [List.nil_append, createsFreshAux] at h
    by_cases hseen : seen = true
    · rw [if_pos (by simp [hseen])] at h
      exact absurd h (by simp)
    · refine ⟨Bool.eq_false_iff.mpr hseen, ?_⟩
      intro r c hmem
      exact absurd hmem (List.not_mem_nil _)
  | cons op rest ih =>
    intro seen h
    cases op with
    | create uid2 s =>
      simp only [List.cons_append, createsFreshAux] at h
      by_cases hc : (s = sid && seen) = true
      · rw [if_pos hc] at h
        exact absurd h (by simp)
      · rw [if_neg hc] at h
        obtain ⟨hseen, hno⟩ := ih seen h
        refine ⟨hseen, fun r c hmem => ?_⟩
        rcases List.mem_cons.mp hmem with heq | hmem2
        · exact absurd heq (by simp)
        · exact hno r c hmem2
    | get s =>
      simp only [List.cons_append, createsFreshAux] at h
      obtain ⟨hseen, hno⟩ := ih seen h
      refine ⟨hseen, fun r c hmem => ?_⟩
      rcases List.mem_cons.mp hmem with heq | hmem2
      · exact absurd heq (by simp)
      · exact hno r c hmem2
    | addMsg s r0 c0 =>
      simp only [List.cons_append, createsFreshAux] at h
      obtain ⟨hseen, hno⟩ := ih _ h
      simp only [Bool.or_eq_false_iff] at hseen
      refine ⟨hseen.1, fun r c hmem => ?_⟩
      rcases List.mem_cons.mp hmem with heq | hmem2
      · have hs : s ≠ sid := by
          have := hseen.2
          simpa using this
        injection heq with h1 h2 h3
        exact hs h1.symm
      · exact hno r c hmem2

theorem msgsFor_nil_of_no_adds (sid : String) (ops : List SOp)
    (h : ∀ r c, SOp.addMsg sid r c ∉ ops) : msgsFor sid ops = [] := by
  have key : ∀ (l : List SOp) (acc : List Msg),
      (∀ r c, SOp.addMsg sid r c ∉ l) →
      l.foldl (fun acc2 op =>
        match op with
        | SOp.addMsg s r c => if s = sid then acc2 ++ [⟨r, c⟩] else acc2
        | _ => acc2) acc = acc := by
    intro l
    induction l with
    | nil =>
      intro acc _
      rfl
    | cons op rest ih =>
      intro acc hno
      have hrest : ∀ r c, SOp.addMsg sid r c ∉ rest := by
        intro r c hmem
        exact hno r c (List.mem_cons_of_mem _ hmem)
      cases op with
      | create uid s => exact ih acc hrest
      | get s => exact ih acc hrest
      | addMsg s r c =>
        have hs : s ≠ sid := by
          intro heq
          subst heq
          exact hno r c (List.mem_cons_self _ _)
        rw [List.foldl_cons]
        dsimp only
        rw [if_neg hs]
        exact ih acc hrest
  exact key ops [] h

theorem msgsFor_nil_of_absent (ops : List SOp) (sid : String)
    (h : pyLookup (runSOps ops) sid = none) : msgsFor sid ops = [] := by
  induction ops using List.reverseRecOn with
  | nil => rfl
  | append_singleton l a ih =>
    rw [runSOps_snoc] at h
    rw [msgsFor_snoc]
    cases a with
    | create uid s =>
      by_cases hs : s = sid
      · subst hs
        unfold applySOp createSession at h
        rw [pyLookup_dictSet_self] at h
        exact absurd h (by simp)
      · unfold applySOp at h
        rw [createSession_frame _ _ _ _ (fun he => hs he.symm)] at h
        exact ih h
    | get s =>
      by_cases hs : s = sid
      · subst hs
        unfold applySOp at h
        rw [getSession_lookup] at h
        exact absurd h (by simp)
      · unfold applySOp at h
        rw [getSession_frame _ _ _ (fun he => hs he.symm)] at h
        exact ih h
    | addMsg s r c =>
      by_cases hs : s = sid
      · subst hs
        unfold applySOp at h
        rw [addMessage_lookup_self] at h
        exact absurd h (by simp)
      · unfold applySOp at h
        rw [addMessage_frame _ _ _ _ _ (fun he => hs he.symm)] at h
        simp only [if_neg hs]
        exact ih h

/-- C9: after any sequence of `create_session` / `get_session` /
`add_message` calls in which created session ids are fresh (no
`create_session` returns an id that already received messages — the uuid4
assumption), every stored session's message list is exactly the last 10
messages added to it, in insertion order, and so contains at most 10
entries. -/
theorem session_messages_cap (ops : List SOp) (sid : String) (sess : Session)
    (hfresh : createsFresh sid ops = true)
    (h : pyLookup (runSOps ops) sid = some sess) :
    sess.messages = pyLastN 10 (msgsFor sid ops) ∧ sess.messages.length ≤ 10 := by
  suffices key : sess.messages = pyLastN 10 (msgsFor sid ops) by
    refine ⟨key, ?_⟩
    rw [key]
    exact pyLastN_length_le 10 _
  induction ops using List.reverseRecOn generalizing sess with
  | nil => exact absurd h (by simp [runSOps, pyLookup])
  | append_singleton l a ih =>
    have hfresh' : createsFresh sid l = true :=
      createsFreshAux_append sid l [a] false hfresh
    rw [runSOps_snoc] at h
    rw [msgsFor_snoc]
    cases a with
    | create uid s =>
      dsimp only [applySOp] at h
      dsimp only
      by_cases hs : sid = s
      · subst hs
        unfold createSession at h
        rw [pyLookup_dictSet_self] at h
        have hsess := Option.some.inj h
        have hno := (createsFreshAux_no_adds sid uid l false hfresh).2
        have hmsgs : msgsFor sid l = [] := msgsFor_nil_of_no_adds sid l hno
        rw [← hsess]
        simp [hmsgs, pyLastN]
      · rw [createSession_frame _ _ _ _ hs] at h
        exact ih _ hfresh' h
    | get s =>
      dsimp only [applySOp] at h
      dsimp only
      by_cases hs : sid = s
      · subst hs
        cases hl : pyLookup (runSOps l) sid with
        | some s0 =>
          rw [getSession_of_lookup _ _ _ hl] at h
          exact ih _ hfresh' h
        | none =>
          unfold getSession at h
          rw [hl] at h
          simp only at h
          rw [pyLookup_dictSet_self] at h
          have hsess := Option.some.inj h
          have hmsgs : msgsFor sid l = [] := msgsFor_nil_of_absent l sid hl
          rw [← hsess]
          simp [hmsgs, pyLastN, emptySession]
      · rw [getSession_frame _ _ _ hs] at h
        exact ih _ hfresh' h
    | addMsg s r c =>
      dsimp only [applySOp] at h
      dsimp only
      by_cases hs : sid = s
      · subst hs
        rw [addMessage_lookup_self] at h
        have hsess := Option.some.inj h
        rw [← hsess]
        simp only [if_pos rfl]
        cases hl : pyLookup (runSOps l) sid with
        | some s0 =>
          rw [getSession_fst_of_lookup _ _ _ hl]
          have hmsgs := ih _ hfresh' hl
          rw [hmsgs]
          exact pyLastN_append 10 (msgsFor sid l) [⟨r, c⟩]
        | none =>
          have hg : (getSession (runSOps l) sid).1 = emptySession := by
            unfold getSession
            rw [hl]
          rw [hg]
          have hmsgs : msgsFor sid l = [] := msgsFor_nil_of_absent l sid hl
          simp [hmsgs, emptySession]
      · rw [addMessage_frame _ _ _ _ _ hs] at h
        rw [if_neg (fun he : s = sid => hs he.symm)]
        exact ih _ hfresh' h

/-- Witness for C9: a concrete create/add/add/get call sequence. -/
theorem session_messages_cap_witness :
    createsFresh "s1" [SOp.create "u1" "s1", SOp.addMsg "s1" "user" "m1",
      SOp.addMsg "s1" "assistant" "m2", SOp.get "s1"] = true ∧
    pyLookup (runSOps [SOp.create "u1" "s1", SOp.addMsg "s1" "user" "m1",
      SOp.addMsg "s1" "assistant" "m2", SOp.get "s1"]) "s1" =
      some ⟨some "u1", [⟨"user", "m1"⟩, ⟨"assistant", "m2"⟩], "", none⟩ ∧
    (⟨some "u1", [⟨"user", "m1"⟩, ⟨"assistant", "m2"⟩], "", none⟩ : Session).messages
      = pyLastN 10 (msgsFor "s1" [SOp.create "u1" "s1", SOp.addMsg "s1" "user" "m1",
        SOp.addMsg "s1" "assistant" "m2", SOp.get "s1"]) ∧
    (⟨some "u1", [⟨"user", "m1"⟩, ⟨"assistant", "m2"⟩], "", none⟩ : Session).messages.length ≤ 10 :=
  ⟨by decide, by decide,
    (session_messages_cap [SOp.create "u1" "s1", SOp.addMsg "s1" "user" "m1",
      SOp.addMsg "s1" "assistant" "m2", SOp.get "s1"] "s1"
      ⟨some "u1", [⟨"user", "m1"⟩, ⟨"assistant", "m2"⟩], "", none⟩
      (by decide) (by decide)).1,
    (session_messages_cap [SOp.create "u1" "s1", SOp.addMsg "s1" "user" "m1",
      SOp.addMsg "s1" "assistant" "m2", SOp.get "s1"] "s1"
      ⟨some "u1", [⟨"user", "m1"⟩, ⟨"assistant", "m2"⟩], "", none⟩
      (by decide) (by decide)).2⟩

/-! ## Vector-store invariants (C4, C5, C10) -/

theorem addDocuments_frame (encode : String → Vec) (st : VState) (s : String)
    (texts : List String) (src : String) (t : String) (h : t ≠ s) :
    pyLookup (addDocuments encode st s texts src).1 t = pyLookup st t := by
  unfold addDocuments
  dsimp only
  have h1 : pyLookup (match pyLookup st s with
      | some _ => st
      | none => initSubjectIndex st s) t = pyLookup st t := by
    cases hl : pyLookup st s with
    | some d => rfl
    | none =>
      unfold initSubjectIndex
      exact pyLookup_dictSet_ne st s t _ h
  by_cases he : texts.isEmpty
  · rw [if_pos he]
    exact h1
  · rw [if_neg he]
    dsimp only
    rw [pyLookup_dictSet_ne _ _ _ _ h]
    exact h1

theorem deleteSubjectData_frame (st : VState) (s t : String) (h : t ≠ s) :
    pyLookup (deleteSubjectData st s) t = pyLookup st t := by
  unfold deleteSubjectData
  cases hl : pyLookup st s with
  | some d =>
    unfold initSubjectIndex
    rw [pyLookup_dictSet_ne _ _ _ _ h]
    exact pyLookup_dictDel_ne st s t h
  | none => rfl

theorem addDocuments_self (encode : String → Vec) (st : VState) (s : String)
    (texts : List String) (src : String) (d1 : SubjData)
    (h1 : pyLookup (match pyLookup st s with
      | some _ => st
      | none => initSubjectIndex st s) s = some d1)
    (hne : texts.isEmpty = false) :
    pyLookup (addDocuments encode st s texts src).1 s = some
      ⟨d1.vecs ++ texts.map encode,
        d1.meta ++ ((List.range texts.length).zip texts).map
          (fun p => MetaEntry.mk p.2 src (d1.meta.length + p.1))⟩ := by
  unfold addDocuments
  dsimp only
  rw [if_neg (by simp [hne])]
  dsimp only
  rw [h1]
  dsimp only [Option.getD]
  exact pyLookup_dictSet_self _ _ _

theorem metaOk_append (d1 : SubjData) (texts : List String) (src : String)
    (encode : String → Vec) (h : MetaOk d1) :
    MetaOk ⟨d1.vecs ++ texts.map encode,
      d1.meta ++ ((List.range texts.length).zip texts).map
        (fun p => MetaEntry.mk p.2 src (d1.meta.length + p.1))⟩ := by
  have hzlen : (((List.range texts.length).zip texts).map
      (fun p => MetaEntry.mk p.2 src (d1.meta.length + p.1))).length = texts.length := by
    simp [List.length_zip]
  constructor
  · intro i hi
    dsimp only at hi ⊢
    rw [List.get_eq_getElem]
    dsimp only
    simp only [List.length_append, hzlen] at hi
    by_cases hlt : i < d1.meta.length
    · rw [List.getElem_append_left hlt]
      have hidx := h.1 i hlt
      rw [List.get_eq_getElem] at hidx
      exact hidx
    · rw [List.getElem_append_right (by omega)]
      simp only [List.getElem_map, List.getElem_zip, List.getElem_range]
      omega
  · dsimp only
    have h2 := h.2
    simp only [List.length_append, List.length_map, hzlen]
    omega

theorem applyVOp_meta (encode : String → Vec) (st : VState) (op : VOp) (s : String)
    (hst : ∀ d, pyLookup st s = some d → MetaOk d) :
    (∀ d, pyLookup (applyVOp encode st op) s = some d → MetaOk d) ∧
    docCount (applyVOp encode st op) s =
      (match op with
        | .add s2 texts _ => if s2 = s then docCount st s + texts.length else docCount st s
        | .del s2 => if s2 = s then 0 else docCount st s) := by
  cases op with
  | add s2 texts src =>
    dsimp only [applyVOp]
    by_cases hs2 : s2 = s
    · subst hs2
      -- the subject being written to
      have hbase : ∃ d1, pyLookup (match pyLookup st s2 with
          | some _ => st
          | none => initSubjectIndex st s2) s2 = some d1 ∧ MetaOk d1 ∧
          d1.meta.length = docCount st s2 := by
        cases hl : pyLookup st s2 with
        | some d =>
          exact ⟨d, hl, hst d hl, by unfold docCount; rw [hl]⟩
        | none =>
          refine ⟨⟨[], []⟩, ?_, ⟨fun i hi => absurd hi (by simp), rfl⟩, ?_⟩
          · unfold initSubjectIndex
            exact pyLookup_dictSet_self _ _ _
          · unfold docCount
            rw [hl]
            rfl
      obtain ⟨d1, hd1, hok1, hcnt1⟩ := hbase
      by_cases he : texts.isEmpty
      · rw [if_pos rfl]
        have hres : (addDocuments encode st s2 texts src).1
            = (match pyLookup st s2 with
                | some _ => st
                | none => initSubjectIndex st s2) := by
          unfold addDocuments
          dsimp only
          rw [if_pos he]
        have hlen0 : texts.length = 0 := by
          simpa [List.isEmpty_iff, List.length_eq_zero] using he
        constructor
        · intro d hd
          rw [hres, hd1] at hd
          rw [← Option.some.inj hd]
          exact hok1
        · rw [hres]
          have h2 : docCount (match pyLookup st s2 with
              | some _ => st
              | none => initSubjectIndex st s2) s2 = d1.meta.length := by
            unfold docCount
            rw [hd1]
          rw [h2, hcnt1, hlen0]
          rfl
      · rw [if_pos rfl]
        have hself := addDocuments_self encode st s2 texts src d1 hd1
          (by simpa using he)
        constructor
        · intro d hd
          rw [hself] at hd
          rw [← Option.some.inj hd]
          exact metaOk_append d1 texts src encode hok1
        · have h2 : docCount (addDocuments encode st s2 texts src).1 s2
              = d1.meta.length + texts.length := by
            unfold docCount
            rw [hself]
            dsimp only
            simp [List.length_zip]
          rw [h2, hcnt1]
    · rw [if_neg hs2]
      have hfr := addDocuments_frame encode st s2 texts src s
        (fun he => hs2 he.symm)
      constructor
      · intro d hd
        rw [hfr] at hd
        exact hst d hd
      · unfold docCount
        rw [hfr]
  | del s2 =>
    dsimp only [applyVOp]
    by_cases hs2 : s2 = s
    · subst hs2
      rw [if_pos rfl]
      unfold deleteSubjectData
      cases hl : pyLookup st s2 with
      | some d =>
        unfold initSubjectIndex
        constructor
        · intro d2 hd2
          rw [pyLookup_dictSet_self] at hd2
          rw [← Option.some.inj hd2]
          exact ⟨fun i hi => absurd hi (by simp), rfl⟩
        · unfold docCount
          rw [pyLookup_dictSet_self]
          rfl
      | none =>
        constructor
        · exact hst
        · unfold docCount
          rw [hl]
    · rw [if_neg hs2]
      have hfr := deleteSubjectData_frame st s2 s (fun he => hs2 he.symm)
      constructor
      · intro d hd
        rw [hfr] at hd
        exact hst d hd
      · unfold docCount
        rw [hfr]

theorem chunksFrom_cons (s : String) (op : VOp) (rest : List VOp) (acc : Nat) :
    chunksFrom s (op :: rest) acc = chunksFrom s rest
      (match op with
        | .add s2 texts _ => if s2 = s then acc + texts.length else acc
        | .del s2 => if s2 = s then 0 else acc) := by
  unfold chunksFrom
  rw [List.foldl_cons]

theorem vstore_fold_inv (encode : String → Vec) (s : String) :
    ∀ (ops : List VOp) (st : VState),
      (∀ d, pyLookup st s = some d → MetaOk d) →
      ∀ d, pyLookup (ops.foldl (applyVOp encode) st) s = some d →
        MetaOk d ∧ d.meta.length = chunksFrom s ops (docCount st s) := by
  intro ops
  induction ops with
  | nil =>
    intro st hst d hd
    rw [List.foldl_nil] at hd
    refine ⟨hst d hd, ?_⟩
    unfold chunksFrom docCount
    rw [List.foldl_nil, hd]
  | cons op rest ih =>
    intro st hst d hd
    rw [List.foldl_cons] at hd
    obtain ⟨hok, hcnt⟩ := applyVOp_meta encode st op s hst
    obtain ⟨hok2, hlen2⟩ := ih (applyVOp encode st op) hok d hd
    refine ⟨hok2, ?_⟩
    rw [hlen2, hcnt, chunksFrom_cons]

theorem initState_metaOk (s : String) :
    ∀ d, pyLookup initState s = some d → MetaOk d := by
  intro d hd
  simp only [initState, pyLookup] at hd
  split_ifs at hd
  case _ => exact (Option.some.inj hd) ▸ ⟨fun i hi => absurd hi (by simp), rfl⟩
  case _ => exact (Option.some.inj hd) ▸ ⟨fun i hi => absurd hi (by simp), rfl⟩
  case _ => exact (Option.some.inj hd) ▸ ⟨fun i hi => absurd hi (by simp), rfl⟩

theorem initState_docCount (s : String) : docCount initState s = 0 := by
  unfold docCount
  simp only [initState, pyLookup]
  split_ifs <;> rfl

/-- C10: after any sequence of `add_documents` / `delete_subject_data`
operations from a fresh store, every present subject's metadata list has
entry `i` carrying `index = i`, and its length equals the number of chunks
added for that subject since it was last initialised or deleted. -/
theorem vector_store_meta_positions (encode : String → Vec) (ops : List VOp)
    (s : String) (d : SubjData) (h : pyLookup (runVOps encode ops) s = some d) :
    (∀ i (hi : i < d.meta.length), (d.meta.get ⟨i, hi⟩).idx = i) ∧
    d.meta.length = chunksSince s ops := by
  have hinv := vstore_fold_inv encode s ops initState (initState_metaOk s) d h
  refine ⟨hinv.1.1, ?_⟩
  rw [hinv.2, initState_docCount]
  rfl

theorem addedPairs_foldl_acc (s : String) : ∀ (ops : List VOp) (a : List (String × String)),
    ops.foldl (fun acc op =>
      match op with
      | VOp.add s2 texts src =>
        if s2 = s then acc ++ texts.map (fun x => (x, src)) else acc
      | VOp.del _ => acc) a
    = a ++ addedPairs s ops := by
  intro ops
  induction ops with
  | nil =>
    intro a
    simp [addedPairs]
  | cons op rest ih =>
    intro a
    rw [List.foldl_cons]
    unfold addedPairs
    rw [List.foldl_cons]
    cases op with
    | add s2 texts src =>
      dsimp only
      by_cases h : s2 = s
      · rw [if_pos h, if_pos h, ih, ih]
        simp [List.append_assoc]
      · rw [if_neg h, if_neg h, ih, ih]
        simp
    | del s2 =>
      dsimp only
      rw [ih, ih]
      simp

theorem addedPairs_cons (s : String) (op : VOp) (rest : List VOp) :
    addedPairs s (op :: rest) =
      (match op with
        | VOp.add s2 texts src =>
          if s2 = s then texts.map (fun x => (x, src)) else []
        | VOp.del _ => []) ++ addedPairs s rest := by
  unfold addedPairs
  rw [List.foldl_cons]
  cases op with
  | add s2 texts src =>
    dsimp only
    by_cases h : s2 = s
    · rw [if_pos h, if_pos h]
      rw [addedPairs_foldl_acc, addedPairs_foldl_acc]
      simp
    · rw [if_neg h, if_neg h]
      rw [addedPairs_foldl_acc]
      simp
  | del s2 =>
    dsimp only
    rw [addedPairs_foldl_acc]
    simp

theorem metaPairs_applyVOp (encode : String → Vec) (st : VState) (op : VOp) (s : String) :
    ∀ pr, pr ∈ metaPairs (applyVOp encode st op) s →
      pr ∈ metaPairs st s ++
        (match op with
          | VOp.add s2 texts src =>
            if s2 = s then texts.map (fun x => (x, src)) else []
          | VOp.del _ => []) := by
  intro pr hpr
  cases op with
  | add s2 texts src =>
    dsimp only [applyVOp] at hpr
    dsimp only
    by_cases h : s2 = s
    · subst h
      rw [if_pos rfl]
      by_cases he : texts.isEmpty
      · have htexts : texts = [] := by
          simpa [List.isEmpty_iff] using he
        subst htexts
        have hres : (addDocuments encode st s2 [] src).1
            = (match pyLookup st s2 with
                | some _ => st
                | none => initSubjectIndex st s2) := by
          unfold addDocuments
          dsimp only
          rw [if_pos List.isEmpty_nil]
        rw [hres] at hpr
        cases hl : pyLookup st s2 with
        | some d =>
          rw [hl] at hpr
          simp only [List.map_nil, List.append_nil]
          exact hpr
        | none =>
          rw [hl] at hpr
          unfold metaPairs initSubjectIndex at hpr
          rw [pyLookup_dictSet_self] at hpr
          exact absurd hpr (by simp)
      · have hbase : ∃ d1, pyLookup (match pyLookup st s2 with
            | some _ => st
            | none => initSubjectIndex st s2) s2 = some d1 ∧
            (d1.meta.map (fun m => (m.text, m.source)) ⊆ metaPairs st s2) := by
          cases hl : pyLookup st s2 with
          | some d =>
            refine ⟨d, hl, ?_⟩
            unfold metaPairs
            rw [hl]
            exact fun x hx => hx
          | none =>
            refine ⟨⟨[], []⟩, ?_, by simp⟩
            unfold initSubjectIndex
            exact pyLookup_dictSet_self _ _ _
        obtain ⟨d1, hd1, hsub⟩ := hbase
        have hself := addDocuments_self encode st s2 texts src d1 hd1
          (by simpa using he)
        unfold metaPairs at hpr
        rw [hself] at hpr
        dsimp only at hpr
        rw [List.map_append] at hpr
        rcases List.mem_append.mp hpr with hold | hnew
        · exact List.mem_append.mpr (Or.inl (hsub hold))
        · refine List.mem_append.mpr (Or.inr ?_)
          obtain ⟨m, hm, hmpr⟩ := List.mem_map.mp hnew
          obtain ⟨p, hp, hpm⟩ := List.mem_map.mp hm
          have hptext := (List.of_mem_zip hp).2
          refine List.mem_map.mpr ⟨p.2, hptext, ?_⟩
          rw [← hmpr, ← hpm]
    · rw [if_neg h]
      have hfr := addDocuments_frame encode st s2 texts src s (fun he => h he.symm)
      unfold metaPairs at hpr
      rw [hfr] at hpr
      unfold metaPairs
      simp only [List.append_nil]
      exact hpr
  | del s2 =>
    dsimp only [applyVOp] at hpr
    dsimp only
    simp only [List.append_nil]
    by_cases h : s2 = s
    · subst h
      unfold deleteSubjectData at hpr
      cases hl : pyLookup st s2 with
      | some d =>
        rw [hl] at hpr
        unfold metaPairs initSubjectIndex at hpr
        rw [pyLookup_dictSet_self] at hpr
        exact absurd hpr (by simp)
      | none =>
        rw [hl] at hpr
        exact hpr
    · have hfr := deleteSubjectData_frame st s2 s (fun he => h he.symm)
      unfold metaPairs at hpr ⊢
      rw [hfr] at hpr
      exact hpr

theorem vstore_fold_pairs (encode : String → Vec) (s : String) :
    ∀ (ops : List VOp) (st : VState) (pr : String × String),
      pr ∈ metaPairs (ops.foldl (applyVOp encode) st) s →
      pr ∈ metaPairs st s ++ addedPairs s ops := by
  intro ops
  induction ops with
  | nil =>
    intro st pr hpr
    rw [List.foldl_nil] at hpr
    unfold addedPairs
    simpa using hpr
  | cons op rest ih =>
    intro st pr hpr
    rw [List.foldl_cons] at hpr
    have h1 := ih (applyVOp encode st op) pr hpr
    rcases List.mem_append.mp h1 with h2 | h2
    · have h3 := metaPairs_applyVOp encode st op s pr h2
      rw [addedPairs_cons]
      rcases List.mem_append.mp h3 with h4 | h4
      · exact List.mem_append.mpr (Or.inl h4)
      · exact List.mem_append.mpr (Or.inr (List.mem_append.mpr (Or.inl h4)))
    · rw [addedPairs_cons]
      exact List.mem_append.mpr (Or.inr (List.mem_append.mpr (Or.inr h2)))

theorem searchGather_mem (meta : List MetaEntry) (pairs : List (Int × Nat)) :
    ∀ (i : Nat) (r : SearchResult), r ∈ searchGather meta i pairs →
      ∃ m ∈ meta, r.text = m.text ∧ r.source = m.source := by
  induction pairs with
  | nil =>
    intro i r hr
    exact absurd hr (List.not_mem_nil r)
  | cons p rest ih =>
    intro i r hr
    unfold searchGather at hr
    cases hg : meta.get? p.2 with
    | some m =>
      rw [hg] at hr
      rcases List.mem_cons.mp hr with heq | hmem
      · subst heq
        exact ⟨m, List.get?_mem hg, rfl, rfl⟩
      · exact ih _ r hmem
    | none =>
      rw [hg] at hr
      exact ih _ r hr

theorem searchGather_length_le (meta : List MetaEntry) (pairs : List (Int × Nat)) :
    ∀ i : Nat, (searchGather meta i pairs).length ≤ pairs.length := by
  induction pairs with
  | nil =>
    intro i
    exact le_refl 0
  | cons p rest ih =>
    intro i
    unfold searchGather
    cases hg : meta.get? p.2 with
    | some m =>
      simp only [List.length_cons]
      exact Nat.succ_le_succ (ih _)
    | none =>
      simp only [List.length_cons]
      exact le_trans (ih _) (Nat.le_succ _)

theorem searchGather_full (meta : List MetaEntry) (pairs : List (Int × Nat)) :
    ∀ i : Nat, (∀ p ∈ pairs, p.2 < meta.length) →
      (searchGather meta i pairs).length = pairs.length ∧
      ∀ j (hj : j < (searchGather meta i pairs).length),
        ((searchGather meta i pairs).get ⟨j, hj⟩).rank = i + j + 1 := by
  induction pairs with
  | nil =>
    intro i _
    refine ⟨rfl, ?_⟩
    intro j hj
    exact absurd hj (by simp [searchGather])
  | cons p rest ih =>
    intro i hvalid
    have hp : p.2 < meta.length := hvalid p (List.mem_cons_self _ _)
    have hg : meta.get? p.2 = some (meta.get ⟨p.2, hp⟩) := List.get?_eq_get hp
    have hrest := ih (i + 1) (fun q hq => hvalid q (List.mem_cons_of_mem _ hq))
    have hstep : searchGather meta i (p :: rest) =
        ⟨(meta.get ⟨p.2, hp⟩).text, (meta.get ⟨p.2, hp⟩).source, p.1, i + 1⟩ ::
          searchGather meta (i + 1) rest := by
      conv_lhs => rw [searchGather]
      rw [hg]
    rw [hstep]
    constructor
    · simp only [List.length_cons, hrest.1]
    · intro j hj
      cases j with
      | zero => rfl
      | succ j2 =>
        simp only [List.length_cons] at hj
        rw [List.get_cons_succ]
        rw [hrest.2 j2 (by omega)]
        omega

theorem insertByDist_perm (x : Int × Nat) (l : List (Int × Nat)) :
    List.Perm (insertByDist x l) (x :: l) := by
  induction l with
  | nil => exact List.Perm.refl _
  | cons y ys ih =>
    unfold insertByDist
    by_cases h : x.1 < y.1
    · rw [if_pos h]
    · rw [if_neg h]
      exact ((ih.cons y).trans (List.Perm.swap x y ys))

theorem sortByDist_perm (l : List (Int × Nat)) :
    List.Perm (sortByDist l) l := by
  induction l with
  | nil => exact List.Perm.refl _
  | cons x xs ih =>
    unfold sortByDist
    exact (insertByDist_perm x (sortByDist xs)).trans (ih.cons x)

theorem faissSearch_length (vecs : List Vec) (q : Vec) (k : Nat) :
    (faissSearch vecs q k).length = min k vecs.length := by
  unfold faissSearch
  rw [List.length_take, (sortByDist_perm _).length_eq, List.length_zip,
    List.length_map, List.length_range, Nat.min_self]

theorem faissSearch_valid (vecs : List Vec) (q : Vec) (k : Nat) :
    ∀ p ∈ faissSearch vecs q k, p.2 < vecs.length := by
  intro p hp
  obtain ⟨pd, pi⟩ := p
  unfold faissSearch at hp
  have h1 := List.mem_of_mem_take hp
  have h2 := (sortByDist_perm _).mem_iff.mp h1
  have h3 := (List.of_mem_zip h2).2
  exact List.mem_range.mp h3

/-- C5: `VectorStore.search` returns at most `top_k` results and at most the
number of stored documents; result `j` (0-based) carries `rank = j + 1`; and
an unknown subject or one with no documents yields `[]` (the function is
total — nothing is raised). -/
theorem vector_store_search_spec (encode : String → Vec) (ops : List VOp)
    (subject query : String) (top_k : Nat) :
    (searchVS encode (runVOps encode ops) subject query top_k).length ≤ top_k ∧
    (searchVS encode (runVOps encode ops) subject query top_k).length ≤
      docCount (runVOps encode ops) subject ∧
    (∀ j (hj : j < (searchVS encode (runVOps encode ops) subject query top_k).length),
      ((searchVS encode (runVOps encode ops) subject query top_k).get ⟨j, hj⟩).rank
        = j + 1) ∧
    ((pyLookup (runVOps encode ops) subject = none ∨
      docCount (runVOps encode ops) subject = 0) →
      searchVS encode (runVOps encode ops) subject query top_k = []) := by
  cases hl : pyLookup (runVOps encode ops) subject with
  | none =>
    have hres : searchVS encode (runVOps encode ops) subject query top_k = [] := by
      unfold searchVS
      rw [hl]
    rw [hres]
    exact ⟨Nat.zero_le _, Nat.zero_le _, fun j hj => absurd hj (by simp),
      fun _ => rfl⟩
  | some d =>
    have hok : MetaOk d :=
      (vstore_fold_inv encode subject ops initState (initState_metaOk subject) d hl).1
    by_cases he : d.meta.isEmpty
    · have hres : searchVS encode (runVOps encode ops) subject query top_k = [] := by
        unfold searchVS
        rw [hl]
        dsimp only
        rw [if_pos he]
      rw [hres]
      exact ⟨Nat.zero_le _, Nat.zero_le _, fun j hj => absurd hj (by simp),
        fun _ => rfl⟩
    · have hres : searchVS encode (runVOps encode ops) subject query top_k =
          searchGather d.meta 0
            (faissSearch d.vecs (encode query) (min top_k d.meta.length)) := by
        unfold searchVS
        rw [hl]
        dsimp only
        rw [if_neg he]
      have hvalid : ∀ p ∈ faissSearch d.vecs (encode query) (min top_k d.meta.length),
          p.2 < d.meta.length := by
        intro p hp
        have h := faissSearch_valid d.vecs (encode query) (min top_k d.meta.length) p hp
        rw [hok.2] at h
        exact h
      obtain ⟨hflen, hranks⟩ := searchGather_full d.meta
        (faissSearch d.vecs (encode query) (min top_k d.meta.length)) 0 hvalid
      have hdoc : docCount (runVOps encode ops) subject = d.meta.length := by
        unfold docCount
        rw [hl]
      refine ⟨?_, ?_, ?_, ?_⟩
      · rw [hres, hflen, faissSearch_length]
        omega
      · rw [hres, hflen, faissSearch_length, hdoc]
        omega
      · intro j hj
        revert hj
        rw [hres]
        intro hj
        have hr := hranks j hj
        omega
      · intro hcase
        rcases hcase with hnone | hzero
        · exact Option.noConfusion hnone
        · rw [hdoc] at hzero
          have hemp : d.meta.isEmpty = true := by
            simpa [List.isEmpty_iff, List.length_eq_zero] using hzero
          exact absurd hemp (by simp [he])

/-- C4: subjects are isolated.  `add_documents` and `delete_subject_data` on
subject `s` leave any other subject `t`'s index and metadata untouched, and
every `search` result for `t` is a `(text, source)` pair that was added under
subject `t`. -/
theorem vector_store_subject_isolation (encode : String → Vec) (st : VState)
    (s t : String) (texts : List String) (src : String) (ops : List VOp)
    (q : String) (k : Nat) (hts : t ≠ s) :
    pyLookup (addDocuments encode st s texts src).1 t = pyLookup st t ∧
    pyLookup (deleteSubjectData st s) t = pyLookup st t ∧
    ∀ r ∈ searchVS encode (runVOps encode ops) t q k,
      (r.text, r.source) ∈ addedPairs t ops := by
  refine ⟨addDocuments_frame encode st s texts src t hts,
    deleteSubjectData_frame st s t hts, ?_⟩
  intro r hr
  cases hl : pyLookup (runVOps encode ops) t with
  | none =>
    unfold searchVS at hr
    rw [hl] at hr
    exact absurd hr (List.not_mem_nil r)
  | some d =>
    unfold searchVS at hr
    rw [hl] at hr
    dsimp only at hr
    by_cases he : d.meta.isEmpty
    · rw [if_pos he] at hr
      exact absurd hr (List.not_mem_nil r)
    · rw [if_neg he] at hr
      obtain ⟨m, hm, htext, hsrc⟩ := searchGather_mem d.meta _ 0 r hr
      have hpr : (r.text, r.source) ∈ metaPairs (runVOps encode ops) t := by
        unfold metaPairs
        rw [hl]
        exact List.mem_map.mpr ⟨m, hm, by rw [htext, hsrc]⟩
      have h2 := vstore_fold_pairs encode t ops initState (r.text, r.source) hpr
      have hinit : metaPairs initState t = [] := by
        unfold metaPairs
        simp only [initState, pyLookup]
        split_ifs <;> rfl
      rw [hinit] at h2
      simpa using h2

/-- Witness for C10: two chunks added to `maths`. -/
theorem vector_store_meta_positions_witness :
    pyLookup (runVOps (fun _ => ([] : List Int))
        [VOp.add "maths" ["a", "b"] "f.pdf"]) "maths"
      = some ⟨[[], []], [⟨"a", "f.pdf", 0⟩, ⟨"b", "f.pdf", 1⟩]⟩ ∧
    (∀ i (hi : i < ([⟨"a", "f.pdf", 0⟩, ⟨"b", "f.pdf", 1⟩] : List MetaEntry).length),
      (([⟨"a", "f.pdf", 0⟩, ⟨"b", "f.pdf", 1⟩] : List MetaEntry).get ⟨i, hi⟩).idx = i) ∧
    ([⟨"a", "f.pdf", 0⟩, ⟨"b", "f.pdf", 1⟩] : List MetaEntry).length
      = chunksSince "maths" [VOp.add "maths" ["a", "b"] "f.pdf"] :=
  ⟨by decide,
    (vector_store_meta_positions (fun _ => ([] : List Int))
      [VOp.add "maths" ["a", "b"] "f.pdf"] "maths"
      ⟨[[], []], [⟨"a", "f.pdf", 0⟩, ⟨"b", "f.pdf", 1⟩]⟩ (by decide)).1,
    (vector_store_meta_positions (fun _ => ([] : List Int))
      [VOp.add "maths" ["a", "b"] "f.pdf"] "maths"
      ⟨[[], []], [⟨"a", "f.pdf", 0⟩, ⟨"b", "f.pdf", 1⟩]⟩ (by decide)).2⟩

/-- Witness for C4: `maths` mutations leave `science` unchanged; `science`
search results come from `science` additions. -/
theorem vector_store_subject_isolation_witness :
    pyLookup (addDocuments (fun _ => ([] : List Int)) initState "maths" ["x"] "f").1
        "science" = pyLookup initState "science" ∧
    pyLookup (deleteSubjectData initState "maths") "science"
      = pyLookup initState "science" ∧
    ∀ r ∈ searchVS (fun _ => ([] : List Int))
        (runVOps (fun _ => ([] : List Int)) [VOp.add "science" ["x"] "f"])
        "science" "q" 3,
      (r.text, r.source) ∈ addedPairs "science" [VOp.add "science" ["x"] "f"] :=
  vector_store_subject_isolation (fun _ => ([] : List Int)) initState "maths" "science"
    ["x"] "f" [VOp.add "science" ["x"] "f"] "q" 3 (by decide)

/-- Witness for C5: a three-document store searched with `top_k = 2`, and an
unknown subject returning `[]`. -/
theorem vector_store_search_spec_witness :
    (searchVS (fun s2 => [(s2.length : Int)])
      (runVOps (fun s2 => [(s2.length : Int)])
        [VOp.add "maths" ["alpha", "beta", "gamma"] "f.pdf"]) "maths" "be" 2).length ≤ 2 ∧
    ((searchVS (fun s2 => [(s2.length : Int)])
      (runVOps (fun s2 => [(s2.length : Int)])
        [VOp.add "maths" ["alpha", "beta", "gamma"] "f.pdf"]) "maths" "be" 2).get
      ⟨0, by decide⟩).rank = 0 + 1 ∧
    searchVS (fun s2 => [(s2.length : Int)])
      (runVOps (fun s2 => [(s2.length : Int)])
        [VOp.add "maths" ["alpha", "beta", "gamma"] "f.pdf"]) "physics" "q" 3 = [] :=
  ⟨(vector_store_search_spec (fun s2 => [(s2.length : Int)])
      [VOp.add "maths" ["alpha", "beta", "gamma"] "f.pdf"] "maths" "be" 2).1,
    (vector_store_search_spec (fun s2 => [(s2.length : Int)])
      [VOp.add "maths" ["alpha", "beta", "gamma"] "f.pdf"] "maths" "be" 2).2.2.1
      0 (by decide),
    (vector_store_search_spec (fun s2 => [(s2.length : Int)])
      [VOp.add "maths" ["alpha", "beta", "gamma"] "f.pdf"] "physics" "q" 3).2.2.2
      (Or.inl (by decide))⟩

/-! ## Context assembly (C8) -/

theorem SubstrL_refl (sub : List Char) : SubstrL sub sub :=
  ⟨[], [], by simp⟩

theorem SubstrL_appendL (sub l x : List Char) (h : SubstrL sub l) :
    SubstrL sub (x ++ l) := by
  obtain ⟨p, q, rfl⟩ := h
  exact ⟨x ++ p, q, by simp [List.append_assoc]⟩

theorem SubstrL_appendR (sub l x : List Char) (h : SubstrL sub l) :
    SubstrL sub (l ++ x) := by
  obtain ⟨p, q, rfl⟩ := h
  exact ⟨p, q ++ x, by simp [List.append_assoc]⟩

theorem pyJoin_mem (sep : String) (parts : List String) (x : String)
    (hx : x ∈ parts) : SubstrL x.data (pyJoin sep parts).data := by
  induction parts with
  | nil => exact absurd hx (List.not_mem_nil x)
  | cons a rest ih =>
    cases rest with
    | nil =>
      have hxa : x = a := by simpa using hx
      subst hxa
      exact SubstrL_refl _
    | cons b rest2 =>
      have hjoin : (pyJoin sep (a :: b :: rest2)).data
          = (a.data ++ sep.data) ++ (pyJoin sep (b :: rest2)).data := by
        show ((a ++ sep) ++ pyJoin sep (b :: rest2)).data = _
        rw [String.data_append, String.data_append]
      rw [hjoin]
      rcases List.mem_cons.mp hx with heq | hx2
      · subst heq
        exact SubstrL_appendR _ _ _ (SubstrL_appendR _ _ _ (SubstrL_refl _))
      · exact SubstrL_appendL _ _ _ (ih hx2)

set_option maxRecDepth 8000 in
/-- C8 counterexample: with `student_profile = None` and a provided
`vector_context`, the function returns early with the bare base prompt — the
vector-context instruction (prioritise and cite the uploaded documents) is
not in the output, contradicting the claim's vector-context clause. -/
theorem build_tutor_prompt_cex :
    (some "Photosynthesis notes" : Option String) ≠ none ∧
    buildTutorSystemPrompt none (some "Photosynthesis notes")
      = BASE_TUTOR_SYSTEM_PROMPT ∧
    ¬ SubstrL vectorCtxInstruction.data
      (buildTutorSystemPrompt none (some "Photosynthesis notes")).data := by
  refine ⟨by simp, rfl, ?_⟩
  intro h
  have hb : buildTutorSystemPrompt none (some "Photosynthesis notes")
      = BASE_TUTOR_SYSTEM_PROMPT := rfl
  rw [hb] at h
  have hc := (containsSub_iff BASE_TUTOR_SYSTEM_PROMPT.data
    vectorCtxInstruction.data).mpr h
  exact absurd hc (by decide)

/-- C8 (amended): the output always begins with the base prompt; a falsy
(`None` or empty) profile returns exactly the base prompt; for a non-empty
profile every recognised field that is present **and truthy** (`age`:
present and non-`None`) appears in the output; and when the profile is
non-empty and `vector_context` is truthy the output contains the
prioritise-and-cite instruction.  (The original claim fails when the profile
is falsy: the early return skips the vector-context instruction.) -/
theorem build_tutor_prompt_spec (sp : Option PyDict) (vc : Option String) :
    (∃ rest : List Char, (buildTutorSystemPrompt sp vc).data
      = BASE_TUTOR_SYSTEM_PROMPT.data ++ rest) ∧
    ((sp = none ∨ sp = some []) →
      buildTutorSystemPrompt sp vc = BASE_TUTOR_SYSTEM_PROMPT) ∧
    (∀ d, sp = some d → d ≠ [] →
      ((pyTruthy (pyGet d "name") = true →
        SubstrL ("Name: " ++ pyValStr (pyGet d "name")).data
          (buildTutorSystemPrompt sp vc).data) ∧
      (pyGet d "age" ≠ PyVal.none →
        SubstrL ("Age: " ++ pyValStr (pyGet d "age")).data
          (buildTutorSystemPrompt sp vc).data) ∧
      (pyTruthy (pyGet d "grade") = true →
        SubstrL ("Grade: " ++ pyValStr (pyGet d "grade")).data
          (buildTutorSystemPrompt sp vc).data) ∧
      (pyTruthy (pyGet d "syllabus") = true →
        SubstrL ("Syllabus: " ++ pyValStr (pyGet d "syllabus")).data
          (buildTutorSystemPrompt sp vc).data) ∧
      (pyTruthy (pyGet d "subject") = true →
        SubstrL ("Subject: " ++ pyValStr (pyGet d "subject")).data
          (buildTutorSystemPrompt sp vc).data) ∧
      (pyTruthy (pyGet d "proficiency") = true →
        SubstrL ("Proficiency: " ++ pyValStr (pyGet d "proficiency")).data
          (buildTutorSystemPrompt sp vc).data) ∧
      (pyTruthy (pyGet d "gender") = true →
        SubstrL ("Gender: " ++ pyValStr (pyGet d "gender")).data
          (buildTutorSystemPrompt sp vc).data) ∧
      (∀ s2, vc = some s2 → s2 ≠ "" →
        SubstrL vectorCtxInstruction.data (buildTutorSystemPrompt sp vc).data))) := by
  cases sp with
  | none =>
    refine ⟨⟨[], by simp [buildTutorSystemPrompt]⟩, fun _ => rfl, ?_⟩
    intro d hd
    exact Option.noConfusion hd
  | some d =>
    by_cases hde : d.isEmpty = true
    · have hdeq : d = [] := by simpa [List.isEmpty_iff] using hde
      subst hdeq
      have hb : buildTutorSystemPrompt (some []) vc = BASE_TUTOR_SYSTEM_PROMPT := by
        unfold buildTutorSystemPrompt
        dsimp only
        rw [if_pos List.isEmpty_nil]
      refine ⟨⟨[], by simp [hb]⟩, fun _ => hb, ?_⟩
      intro d2 hd2 hne
      exact absurd (Option.some.inj hd2).symm hne
    · have hfield : ∀ x : String, x ∈ partsOf d →
          SubstrL x.data (buildTutorSystemPrompt (some d) vc).data := by
        intro x hx
        have hpne : ¬ (partsOf d).isEmpty = true := by
          simp only [List.isEmpty_iff]
          exact List.ne_nil_of_mem hx
        have hsub0 : SubstrL x.data (pyJoin "\n- " (partsOf d)).data :=
          pyJoin_mem _ _ x hx
        unfold buildTutorSystemPrompt
        dsimp only
        rw [if_neg hde]
        rw [if_neg hpne]
        cases vc with
        | none =>
          dsimp only
          simp only [String.data_append]
          exact SubstrL_appendR _ _ _ (SubstrL_appendR _ _ _
            (SubstrL_appendL _ _ _ hsub0))
        | some s2 =>
          dsimp only
          by_cases hs2 : s2 ≠ ""
          · rw [if_pos hs2]
            simp only [String.data_append]
            exact SubstrL_appendR _ _ _ (SubstrL_appendR _ _ _
              (SubstrL_appendR _ _ _ (SubstrL_appendL _ _ _ hsub0)))
          · rw [if_neg hs2]
            simp only [String.data_append]
            exact SubstrL_appendR _ _ _ (SubstrL_appendR _ _ _
              (SubstrL_appendL _ _ _ hsub0))
      have hrest : ∃ rest : List Char, (buildTutorSystemPrompt (some d) vc).data
          = BASE_TUTOR_SYSTEM_PROMPT.data ++ rest := by
        unfold buildTutorSystemPrompt
        dsimp only
        rw [if_neg hde]
        by_cases hparts : (partsOf d).isEmpty = true
        · rw [if_pos hparts]
          cases vc with
          | none =>
            dsimp only
            exact ⟨[], by simp⟩
          | some s2 =>
            dsimp only
            by_cases hs2 : s2 ≠ ""
            · rw [if_pos hs2]
              exact ⟨vectorCtxInstruction.data, by rw [String.data_append]⟩
            · rw [if_neg hs2]
              exact ⟨[], by simp⟩
        · rw [if_neg hparts]
          cases vc with
          | none =>
            dsimp only
            exact ⟨("\nStudent Profile (for personalization):\n- "
                ++ pyJoin "\n- " (partsOf d) ++ ".\n" ++ profileGuidance).data,
              by simp [String.data_append, List.append_assoc]⟩
          | some s2 =>
            dsimp only
            by_cases hs2 : s2 ≠ ""
            · rw [if_pos hs2]
              exact ⟨("\nStudent Profile (for personalization):\n- "
                  ++ pyJoin "\n- " (partsOf d) ++ ".\n" ++ profileGuidance
                  ++ vectorCtxInstruction).data,
                by simp [String.data_append, List.append_assoc]⟩
            · rw [if_neg hs2]
              exact ⟨("\nStudent Profile (for personalization):\n- "
                  ++ pyJoin "\n- " (partsOf d) ++ ".\n" ++ profileGuidance).data,
                by simp [String.data_append, List.append_assoc]⟩
      have hvcinstr : ∀ s2, vc = some s2 → s2 ≠ "" →
          SubstrL vectorCtxInstruction.data
            (buildTutorSystemPrompt (some d) vc).data := by
        intro s2 hvc2 hs2
        subst hvc2
        unfold buildTutorSystemPrompt
        dsimp only
        rw [if_neg hde]
        rw [if_pos hs2]
        rw [String.data_append]
        exact SubstrL_appendL _ _ _ (SubstrL_refl _)
      refine ⟨hrest, ?_, ?_⟩
      · intro hcase
        rcases hcase with hn | he
        · exact Option.noConfusion hn
        · exact absurd (Option.some.inj he)
            (by simpa [List.isEmpty_iff] using hde)
      · intro d2 hd2 _
        have hd2eq : d2 = d := (Option.some.inj hd2).symm
        subst hd2eq
        refine ⟨?_, ?_, ?_, ?_, ?_, ?_, ?_, hvcinstr⟩
        · intro ht
          exact hfield _ (by simp [partsOf, ht])
        · intro ht
          exact hfield _ (by simp [partsOf, ht])
        · intro ht
          exact hfield _ (by simp [partsOf, ht])
        · intro ht
          exact hfield _ (by simp [partsOf, ht])
        · intro ht
          exact hfield _ (by simp [partsOf, ht])
        · intro ht
          exact hfield _ (by simp [partsOf, ht])
        · intro ht
          exact hfield _ (by simp [partsOf, ht])

/-- Witness for C8: a profile with name and age, and a truthy context. -/
theorem build_tutor_prompt_spec_witness :
    (some [("name", PyVal.str "Asha"), ("age", PyVal.int 13)] : Option PyDict)
      = some [("name", PyVal.str "Asha"), ("age", PyVal.int 13)] ∧
    [("name", PyVal.str "Asha"), ("age", PyVal.int 13)] ≠ ([] : PyDict) ∧
    pyTruthy (pyGet [("name", PyVal.str "Asha"), ("age", PyVal.int 13)] "name") = true ∧
    SubstrL ("Name: " ++ pyValStr (pyGet
        [("name", PyVal.str "Asha"), ("age", PyVal.int 13)] "name")).data
      (buildTutorSystemPrompt (some [("name", PyVal.str "Asha"), ("age", PyVal.int 13)])
        (some "ctx")).data ∧
    SubstrL vectorCtxInstruction.data
      (buildTutorSystemPrompt (some [("name", PyVal.str "Asha"), ("age", PyVal.int 13)])
        (some "ctx")).data :=
  ⟨rfl, by decide, by decide,
    ((build_tutor_prompt_spec (some [("name", PyVal.str "Asha"), ("age", PyVal.int 13)])
        (some "ctx")).2.2 _ rfl (by decide)).1 (by decide),
    ((build_tutor_prompt_spec (some [("name", PyVal.str "Asha"), ("age", PyVal.int 13)])
        (some "ctx")).2.2 _ rfl (by decide)).2.2.2.2.2.2.2 "ctx" rfl (by decide)⟩

end Edumentor
